import Mathlib

/-!
# Verification of the Aura fleet orchestrator core

A shallow embedding of the orchestration layer of the Aura repository
(`src/util/Queue.mjs`, `src/util/Serialization.mjs`,
`src/util/CentralRequestHandler.mjs`, `src/sharding/Admiral.mjs`) together
with proofs about it.

Modelling conventions:
* JavaScript `Map` / the repo's `Collection` (a `Map` subclass) are modelled
  as association lists in insertion order: `set` replaces a present key in
  place and appends an absent one, `delete` removes it, `find` scans the
  values in insertion order.
* JS numbers used as identifiers and counters are `Nat` (they never go
  negative in the modelled code paths); arithmetic that can go negative in
  the source is done in `Int`.
* JS strings are modelled as `List Char` where string *contents* matter
  (the serialization helpers) and as `String` where strings are opaque tags.
* Asynchronous callbacks (`setTimeout`) are modelled as explicit pending
  timers fired by an external scheduler event; `EventEmitter.emit` is
  synchronous in Node, so the Queue's `"execute"` event runs its subscriber
  synchronously, which is modelled by direct (fuelled) recursion.
-/

namespace Aura

/-! ## JS `Map` modelled as an insertion-ordered association list -/

/-- `Map.get`: value bound to `k`, if present. -/
def jsGet [BEq α] (m : List (α × β)) (k : α) : Option β :=
  match m.find? (fun p => p.1 == k) with
  | some p => some p.2
  | none => none

/-- `Map.set`: replace in place when the key is present, append otherwise. -/
def jsSet [BEq α] (m : List (α × β)) (k : α) (v : β) : List (α × β) :=
  match m with
  | [] => [(k, v)]
  | p :: rest => if p.1 == k then (k, v) :: rest else p :: jsSet rest k v

/-- `Map.delete`: remove the binding for `k` (first occurrence). -/
def jsDelete [BEq α] (m : List (α × β)) (k : α) : List (α × β) :=
  match m with
  | [] => []
  | p :: rest => if p.1 == k then rest else p :: jsDelete rest k

/-- `Collection.find` (src/util/Collection.mjs): first value, in insertion
order, satisfying the predicate; `undefined` (here `none`) otherwise. -/
def jsFind (m : List (α × β)) (f : β → Bool) : Option β :=
  match m.find? (fun p => f p.2) with
  | some p => some p.2
  | none => none

/-! ## Queue (src/util/Queue.mjs)

The queue is an ordered list plus an optional override tag.  The class is an
`EventEmitter`; here the pure state transition of each method is computed
together with the list of `"execute"` events it emits (each event carries
`(item, prevItem)` exactly as `emit("execute", item, prevItem)` does).
JS truthiness of `this.override` is modelled by `Option String` where the
source only ever stores `undefined` or the non-empty string
`"shutdownWorker"`. -/

/-- `item.type` in queue items: `"cluster"`, `"service"`, or `"n"`. -/
inductive WType where
  | cluster
  | service
  | n
deriving DecidableEq, Repr

/-- The lifecycle command carried by a queue item (`item.message`).  Only the
fields the orchestrator reads are kept: the op tag and, for `connect`
messages, the cluster ID or service name. -/
inductive QMsg where
  | connectCluster (clusterID : Nat)
  | connectService (serviceName : String)
  | shutdown
deriving DecidableEq, Repr

/-- A `QueueItem`. -/
structure QItem where
  workerID : Nat
  type : WType
  msg : QMsg
deriving DecidableEq, Repr

/-- State of a `Queue` instance: the pending list and the override tag. -/
structure QueueState where
  items : List QItem
  override : Option String
deriving DecidableEq, Repr

/-- One emitted `"execute"` event: `(item, prevItem)`. -/
structure QEmit where
  item : QItem
  prevItem : Option QItem
deriving DecidableEq, Repr

/-- The override gate at the top of `execute`/`item`/`bulkItems`:
`if (this.override && override !== this.override) return;`. -/
def Queue.gateBlocks (s : QueueState) (override : Option String) : Bool :=
  s.override.isSome && override != s.override

/-- `Queue.execute(first, override)` as a pure transition, returning the new
state and the emitted `"execute"` events. -/
def Queue.execute (s : QueueState) (first : Bool) (override : Option String) :
    QueueState × List QEmit :=
  if Queue.gateBlocks s override then (s, [])
  else
    let prevItem := if first then none else s.items.head?
    let items' := if first then s.items else s.items.drop 1
    match items'.head? with
    | none => ({ s with items := items' }, [])
    | some item => ({ s with items := items' }, [⟨item, prevItem⟩])

/-- `Queue.item(item, override)`. -/
def Queue.item (s : QueueState) (it : QItem) (override : Option String) :
    QueueState × List QEmit :=
  if Queue.gateBlocks s override then (s, [])
  else
    let s' := { s with items := s.items ++ [it] }
    if s'.items.length == 1 then Queue.execute s' true override else (s', [])

/-- `Queue.bulkItems(items, override)`. -/
def Queue.bulkItems (s : QueueState) (its : List QItem) (override : Option String) :
    QueueState × List QEmit :=
  if Queue.gateBlocks s override then (s, [])
  else
    let execute := s.items.length == 0
    let s' := { s with items := s.items ++ its }
    if execute then Queue.execute s' true override else (s', [])

/-! ### C8: the override gate -/

/-- **C8.** Once the Queue's override tag is set, every `item`/`bulkItems`
(enqueue) or `execute` (advance) call whose tag differs from the override —
including calls with no tag — is silently dropped: the state is unchanged and
no `"execute"` event is emitted.  Calls carrying the matching tag behave
normally, i.e. exactly as the same call on the same queue with no override
set (same resulting list, same emitted events). -/
theorem queue_override_gate (s : QueueState) (t : String) (o : Option String)
    (it : QItem) (its : List QItem) (first : Bool)
    (hset : s.override = some t) (hmis : o ≠ some t) :
    Queue.item s it o = (s, []) ∧
    Queue.bulkItems s its o = (s, []) ∧
    Queue.execute s first o = (s, []) ∧
    ((Queue.item s it (some t)).1.items
        = (Queue.item { s with override := none } it none).1.items ∧
      (Queue.item s it (some t)).2
        = (Queue.item { s with override := none } it none).2) ∧
    ((Queue.bulkItems s its (some t)).1.items
        = (Queue.bulkItems { s with override := none } its none).1.items ∧
      (Queue.bulkItems s its (some t)).2
        = (Queue.bulkItems { s with override := none } its none).2) ∧
    ((Queue.execute s first (some t)).1.items
        = (Queue.execute { s with override := none } first none).1.items ∧
      (Queue.execute s first (some t)).2
        = (Queue.execute { s with override := none } first none).2) := by
  have hblock : Queue.gateBlocks s o = true := by
    simp [Queue.gateBlocks, hset, bne_iff_ne, hmis]
  have hpass : Queue.gateBlocks s (some t) = false := by
    simp [Queue.gateBlocks, hset]
  have hnone : Queue.gateBlocks { s with override := none } none = false := by
    simp [Queue.gateBlocks]
  refine ⟨?_, ?_, ?_, ?_, ?_, ?_⟩
  · simp [Queue.item, hblock]
  · simp [Queue.bulkItems, hblock]
  · simp [Queue.execute, hblock]
  · simp only [Queue.item, hpass, hnone, Bool.false_eq_true, if_false]
    cases h : (s.items ++ [it]).length == 1 <;>
      simp only [h, Queue.execute, Queue.gateBlocks, hset, if_true, if_false] <;>
      [simp; rcases hh : s.items.head?.or (some it) with _ | x] <;> simp [hh]
  · simp only [Queue.bulkItems, hpass, hnone, Bool.false_eq_true, if_false]
    cases h : s.items.length == 0 <;>
      simp only [h, Queue.execute, Queue.gateBlocks, hset, if_true, if_false] <;>
      [simp; rcases hh : s.items.head?.or its.head? with _ | x] <;> simp [hh]
  · simp only [Queue.execute, hpass, hnone, Bool.false_eq_true, if_false]
    cases first <;> cases h : s.items <;> simp [h] <;>
      cases h2 : (s.items.drop 1).head? <;> simp_all

/-- Witness for `queue_override_gate` at a concrete queue. -/
theorem queue_override_gate_witness :
    Queue.item ⟨[], some "shutdownWorker"⟩ ⟨1, .cluster, .shutdown⟩ none
      = (⟨[], some "shutdownWorker"⟩, []) :=
  (queue_override_gate ⟨[], some "shutdownWorker"⟩ "shutdownWorker" none
    ⟨1, .cluster, .shutdown⟩ [] true rfl (by simp)).1

/-! ## Shard partitioning: `Admiral.chunk` (src/sharding/Admiral.mjs 1889-1909)

The source keeps two loops: an equal-size slicing loop when
`length % clusters === 0`, and a loop taking `ceil(remaining/clusters--)`
otherwise.  Both loops advance `i` by the current slice size, so the number
of iterations is bounded by the (always reached) value of `clusters`; the
Lean versions recurse on that bound.  `Math.ceil(a / b)` on naturals with
`b ≥ 1` is `(a + b - 1) / b`. -/

/-- The even-split loop of `chunk`: `while (i < length) r.push(shards.slice(i,
i += size))` with the fixed `size = length / clusters`.  The `clusters`
argument is the iteration bound: when `clusters` divides `length` the loop
runs exactly `length / size = clusters` times, so the bound is never hit. -/
def chunkEvenGo (size : Nat) : List Nat → Nat → List (List Nat)
  | _, 0 => []
  | xs, c + 1 =>
    if xs.isEmpty then []
    else xs.take size :: chunkEvenGo size (xs.drop size) c

/-- The uneven-split loop of `chunk`:
`size = Math.ceil((length - i) / clusters--); r.push(shards.slice(i, i += size))`.
Recursion is on the decremented `clusters`.  With `clusters = 0` and a
non-empty remainder, JS computes `Math.ceil(r/0) = Infinity` and slices the
whole rest (that state is unreachable from `chunk`, where the remainder is
empty by the time `clusters` hits 0). -/
def chunkGo : List Nat → Nat → List (List Nat)
  | xs, 0 => if xs.isEmpty then [] else [xs]
  | xs, c + 1 =>
    if xs.isEmpty then []
    else
      let size := (xs.length + c) / (c + 1)
      xs.take size :: chunkGo (xs.drop size) c

/-- `Admiral.chunk(shards, clusters)`. -/
def chunk (shards : List Nat) (clusters : Int) : List (List Nat) :=
  if clusters < 2 then [shards]
  else
    let c := clusters.toNat
    if shards.length % c = 0 then chunkEvenGo (shards.length / c) shards c
    else chunkGo shards c

/-! ### Facts about `chunk` -/

theorem chunkGo_flatten : ∀ (c : Nat) (xs : List Nat), (chunkGo xs c).flatten = xs := by
  intro c
  induction c with
  | zero =>
    intro xs
    cases xs <;> simp [chunkGo]
  | succ c ih =>
    intro xs
    cases hxs : xs.isEmpty
    · simp only [chunkGo, hxs, Bool.false_eq_true, if_false, List.flatten_cons]
      rw [ih]
      exact List.take_append_drop _ xs
    · simp [chunkGo, hxs, List.isEmpty_iff.mp hxs]

/-- Each uneven-loop slice is non-empty while elements remain. -/
theorem chunk_size_pos (len c : Nat) (h : 1 ≤ len) : 1 ≤ (len + c) / (c + 1) :=
  (Nat.le_div_iff_mul_le (Nat.succ_pos c)).2 (by omega)

/-- Each uneven-loop slice leaves at least `c` elements for the remaining
`c` iterations. -/
theorem chunk_size_le (len c : Nat) (h : c + 1 ≤ len) :
    (len + c) / (c + 1) ≤ len - c := by
  rw [Nat.div_le_iff_le_mul_add_pred (Nat.succ_pos c)]
  have hexp : c.succ * (len - c) = c * (len - c) + (len - c) := by
    simp [Nat.succ_eq_add_one]; ring
  have hc : c ≤ c * (len - c) := Nat.le_mul_of_pos_right c (by omega)
  omega

theorem chunk_ceil_succ_eq (len c : Nat) :
    (len + c) / (c + 1) = len / (c + 1) + (if len % (c + 1) = 0 then 0 else 1) := by
  have hdm : (c + 1) * (len / (c + 1)) + len % (c + 1) = len := Nat.div_add_mod len (c + 1)
  have hm : len % (c + 1) < c + 1 := Nat.mod_lt _ (Nat.succ_pos c)
  set f := len / (c + 1) with hf
  set m := len % (c + 1) with hmdef
  have h1 : len + c = (c + 1) * f + (m + c) := by omega
  rw [h1, Nat.mul_add_div (Nat.succ_pos c)]
  congr 1
  by_cases h0 : m = 0
  · simp [h0, Nat.div_eq_of_lt (by omega : c < c + 1)]
  · have : (m + c) / (c + 1) = 1 :=
      Nat.div_eq_of_lt_le (by omega) (by omega)
    simp [h0, this]

theorem chunk_q_mul_ge (len c : Nat) : len ≤ (c + 1) * ((len + c) / (c + 1)) := by
  have hdm : (c + 1) * (len / (c + 1)) + len % (c + 1) = len := Nat.div_add_mod len (c + 1)
  have hm : len % (c + 1) < c + 1 := Nat.mod_lt _ (Nat.succ_pos c)
  rw [chunk_ceil_succ_eq]
  by_cases h0 : len % (c + 1) = 0
  · simp only [h0, if_true, Nat.add_zero]
    omega
  · simp only [h0, if_false, Nat.mul_add, Nat.mul_one]
    omega

/-- The next iteration's (ceiling) slice size never exceeds the current one. -/
theorem chunk_next_ceil_le (len c : Nat) (hc : 1 ≤ c) :
    (len - (len + c) / (c + 1) + (c - 1)) / c ≤ (len + c) / (c + 1) := by
  set q := (len + c) / (c + 1) with hq
  rw [Nat.div_le_iff_le_mul_add_pred (by omega : 0 < c)]
  have h1 : len ≤ (c + 1) * q := chunk_q_mul_ge len c
  have h2 : (c + 1) * q = c * q + q := by ring
  omega

/-- The next iteration's floor never drops below the current one. -/
theorem chunk_next_floor_ge (len c : Nat) (hc : 1 ≤ c) :
    len / (c + 1) ≤ (len - (len + c) / (c + 1)) / c := by
  rw [Nat.le_div_iff_mul_le (by omega : 0 < c)]
  have hdm : (c + 1) * (len / (c + 1)) + len % (c + 1) = len := Nat.div_add_mod len (c + 1)
  have hm : len % (c + 1) < c + 1 := Nat.mod_lt _ (Nat.succ_pos c)
  have hce := chunk_ceil_succ_eq len c
  have hexp : (c + 1) * (len / (c + 1)) = c * (len / (c + 1)) + len / (c + 1) := by ring
  have hcomm : len / (c + 1) * c = c * (len / (c + 1)) := Nat.mul_comm _ _
  by_cases h0 : len % (c + 1) = 0 <;> simp only [h0, if_true, if_false] at hce <;> omega

theorem chunkGo_length : ∀ (c : Nat) (xs : List Nat), 1 ≤ c → c ≤ xs.length →
    (chunkGo xs c).length = c := by
  intro c
  induction c with
  | zero => omega
  | succ c ih =>
    intro xs _ hlen
    have hne : xs.isEmpty = false := by
      cases xs
      · simp at hlen
      · rfl
    simp only [chunkGo, hne, Bool.false_eq_true, if_false, List.length_cons]
    rcases Nat.eq_zero_or_pos c with hc | hc
    · subst hc
      have hsz : (xs.length + 0) / 1 = xs.length := by simp
      simp [hsz, chunkGo]
    · have hle : (xs.length + c) / (c + 1) ≤ xs.length - c := chunk_size_le _ _ hlen
      have : c ≤ (List.drop ((xs.length + c) / (c + 1)) xs).length := by
        simp only [List.length_drop]
        omega
      rw [ih _ hc this]

/-- Every chunk the uneven loop produces has size between the floor and the
ceiling of `length / clusters`. -/
theorem chunkGo_length_bounds : ∀ (c : Nat) (xs : List Nat), 1 ≤ c → c ≤ xs.length →
    ∀ L ∈ chunkGo xs c, xs.length / c ≤ L.length ∧ L.length ≤ (xs.length + (c - 1)) / c := by
  intro c
  induction c with
  | zero => omega
  | succ c ih =>
    intro xs _ hlen L hL
    have hne : xs.isEmpty = false := by
      cases xs
      · simp at hlen
      · rfl
    simp only [chunkGo, hne, Bool.false_eq_true, if_false] at hL
    have hqlen : (xs.length + c) / (c + 1) ≤ xs.length := by
      have := chunk_size_le xs.length c hlen
      omega
    rcases List.mem_cons.mp hL with hL | hL
    · subst hL
      constructor
      · rw [List.length_take, Nat.min_eq_left hqlen]
        exact Nat.div_le_div_right (by omega)
      · rw [List.length_take, Nat.add_sub_cancel]
        omega
    · rcases Nat.eq_zero_or_pos c with hc | hc
      · exfalso
        subst hc
        have : (xs.length + 0) / 1 = xs.length := by simp
        rw [this] at hL
        simp [chunkGo] at hL
      · have hdlen : c ≤ (List.drop ((xs.length + c) / (c + 1)) xs).length := by
          have := chunk_size_le xs.length c hlen
          simp only [List.length_drop]
          omega
        obtain ⟨hlo, hhi⟩ := ih _ hc hdlen L hL
        simp only [List.length_drop] at hlo hhi
        constructor
        · exact le_trans (chunk_next_floor_ge xs.length c hc) hlo
        · rw [Nat.add_sub_cancel]
          exact le_trans hhi (chunk_next_ceil_le xs.length c hc)

/-- The uneven loop's chunk sizes are non-increasing. -/
theorem chunkGo_sorted : ∀ (c : Nat) (xs : List Nat), 1 ≤ c → c ≤ xs.length →
    ((chunkGo xs c).map List.length).Pairwise (fun a b => b ≤ a) := by
  intro c
  induction c with
  | zero => omega
  | succ c ih =>
    intro xs _ hlen
    have hne : xs.isEmpty = false := by
      cases xs
      · simp at hlen
      · rfl
    simp only [chunkGo, hne, Bool.false_eq_true, if_false, List.map_cons]
    rcases Nat.eq_zero_or_pos c with hc | hc
    · subst hc
      have h1 : (xs.length + 0) / 1 = xs.length := by simp
      rw [h1]
      simp [chunkGo]
    · have hdlen : c ≤ (List.drop ((xs.length + c) / (c + 1)) xs).length := by
        have := chunk_size_le xs.length c hlen
        simp only [List.length_drop]
        omega
      refine List.Pairwise.cons ?_ (ih _ hc hdlen)
      intro b hb
      rcases List.mem_map.mp hb with ⟨L, hL, rfl⟩
      have hhi := (chunkGo_length_bounds c _ hc hdlen L hL).2
      simp only [List.length_drop] at hhi
      have hqlen : (xs.length + c) / (c + 1) ≤ xs.length := by
        have := chunk_size_le xs.length c hlen
        omega
      have h2 := chunk_next_ceil_le xs.length c hc
      rw [List.length_take]
      omega

theorem chunk_ceil_le_floor_add_one (len c : Nat) (hc : 1 ≤ c) :
    (len + (c - 1)) / c ≤ len / c + 1 := by
  obtain ⟨c', rfl⟩ : ∃ c', c = c' + 1 := ⟨c - 1, by omega⟩
  rw [Nat.add_sub_cancel, chunk_ceil_succ_eq]
  split <;> omega

theorem chunkEvenGo_flatten : ∀ (c : Nat) (xs : List Nat) (size : Nat),
    xs.length = size * c → (chunkEvenGo size xs c).flatten = xs := by
  intro c
  induction c with
  | zero =>
    intro xs size h
    rw [Nat.mul_zero] at h
    rw [List.eq_nil_of_length_eq_zero h]
    rfl
  | succ c ih =>
    intro xs size h
    have hmul : size * (c + 1) = size * c + size := by ring
    cases hxs : xs.isEmpty
    · simp only [chunkEvenGo, hxs, Bool.false_eq_true, if_false, List.flatten_cons]
      have hd : (List.drop size xs).length = size * c := by
        simp only [List.length_drop]
        omega
      rw [ih _ size hd]
      exact List.take_append_drop _ xs
    · simp [chunkEvenGo, hxs, List.isEmpty_iff.mp hxs]

theorem chunkEvenGo_length : ∀ (c : Nat) (xs : List Nat) (size : Nat),
    xs.length = size * c → 1 ≤ size → (chunkEvenGo size xs c).length = c := by
  intro c
  induction c with
  | zero => intro xs size _ _; rfl
  | succ c ih =>
    intro xs size h hs
    have hmul : size * (c + 1) = size * c + size := by ring
    have hne : xs.isEmpty = false := by
      cases xs
      · simp at h; omega
      · rfl
    simp only [chunkEvenGo, hne, Bool.false_eq_true, if_false, List.length_cons]
    have hd : (List.drop size xs).length = size * c := by
      simp only [List.length_drop]
      omega
    rw [ih _ size hd hs]

theorem chunkEvenGo_sizes : ∀ (c : Nat) (xs : List Nat) (size : Nat),
    xs.length = size * c → ∀ L ∈ chunkEvenGo size xs c, L.length = size := by
  intro c
  induction c with
  | zero => intro xs size _ L hL; simp [chunkEvenGo] at hL
  | succ c ih =>
    intro xs size h L hL
    have hmul : size * (c + 1) = size * c + size := by ring
    cases hxs : xs.isEmpty
    · simp only [chunkEvenGo, hxs, Bool.false_eq_true, if_false] at hL
      have hd : (List.drop size xs).length = size * c := by
        simp only [List.length_drop]
        omega
      rcases List.mem_cons.mp hL with hL | hL
      · subst hL
        rw [List.length_take]
        omega
      · exact ih _ size hd L hL
    · rw [List.isEmpty_iff.mp hxs] at h
      simp only [chunkEvenGo, hxs, if_true] at hL
      simp at hL

/-! ### C2 -/

/-- **C2 counterexample.** The claim promises "exactly `clusters` contiguous
groups" whenever `clusters ≥ 2`, for *every* list of shard IDs; but
`chunk([0], 2)` returns a single group `[[0]]`, not 2 groups. -/
theorem chunk_counterexample : chunk [0] 2 = [[0]] ∧ (chunk [0] 2).length ≠ 2 := by
  decide

/-- **C2 (amended).** `chunk(ids, clusters)` returns a single group holding
all of `ids` when `clusters < 2`; when `2 ≤ clusters` *and at least
`clusters` ids are supplied*, it returns exactly `clusters` contiguous
groups whose concatenation is `ids`, whose sizes differ by at most one,
with earlier groups never smaller than later ones; and
`chunk([0..9], 3) = [[0,1,2,3],[4,5,6],[7,8,9]]`. -/
theorem chunk_balanced_partition (ids : List Nat) (k : Int) :
    (k < 2 → chunk ids k = [ids]) ∧
    (2 ≤ k → k.toNat ≤ ids.length →
      (chunk ids k).length = k.toNat ∧
      (chunk ids k).flatten = ids ∧
      ((chunk ids k).map List.length).Pairwise (fun a b => b ≤ a) ∧
      ∀ a ∈ (chunk ids k).map List.length, ∀ b ∈ (chunk ids k).map List.length,
        a ≤ b + 1) ∧
    chunk [0,1,2,3,4,5,6,7,8,9] 3 = [[0,1,2,3],[4,5,6],[7,8,9]] := by
  refine ⟨fun h => by simp [chunk, h], fun h2 hle => ?_, by decide⟩
  have hnl : ¬ k < 2 := not_lt.mpr h2
  have hc2 : 2 ≤ k.toNat := by
    have := Int.toNat_le_toNat h2
    simpa using this
  simp only [chunk, if_neg hnl]
  set c := k.toNat with hcdef
  by_cases hmod : ids.length % c = 0
  · simp only [hmod, if_pos rfl, if_true]
    have hdvd : c ∣ ids.length := Nat.dvd_of_mod_eq_zero hmod
    have hsz : ids.length = ids.length / c * c := (Nat.div_mul_cancel hdvd).symm
    have hsize1 : 1 ≤ ids.length / c :=
      (Nat.le_div_iff_mul_le (by omega)).2 (by omega)
    refine ⟨chunkEvenGo_length c ids _ hsz hsize1,
      chunkEvenGo_flatten c ids _ hsz, ?_, ?_⟩
    · refine List.pairwise_of_forall_mem_list ?_
      intro a ha b hb
      rcases List.mem_map.mp ha with ⟨L, hL, rfl⟩
      rcases List.mem_map.mp hb with ⟨M, hM, rfl⟩
      rw [chunkEvenGo_sizes c ids _ hsz L hL, chunkEvenGo_sizes c ids _ hsz M hM]
    · intro a ha b hb
      rcases List.mem_map.mp ha with ⟨L, hL, rfl⟩
      rcases List.mem_map.mp hb with ⟨M, hM, rfl⟩
      rw [chunkEvenGo_sizes c ids _ hsz L hL, chunkEvenGo_sizes c ids _ hsz M hM]
      omega
  · simp only [hmod, if_neg hmod, if_false]
    have hc1 : 1 ≤ c := by omega
    refine ⟨chunkGo_length c ids hc1 hle, chunkGo_flatten c ids,
      chunkGo_sorted c ids hc1 hle, ?_⟩
    intro a ha b hb
    rcases List.mem_map.mp ha with ⟨L, hL, rfl⟩
    rcases List.mem_map.mp hb with ⟨M, hM, rfl⟩
    have hLb := (chunkGo_length_bounds c ids hc1 hle L hL).2
    have hMb := (chunkGo_length_bounds c ids hc1 hle M hM).1
    have := chunk_ceil_le_floor_add_one ids.length c hc1
    omega

/-- Witness for `chunk_balanced_partition` at concrete inputs. -/
theorem chunk_balanced_partition_witness :
    chunk [5,6,7] 1 = [[5,6,7]] ∧
    (chunk [0,1,2,3,4] 2).length = (2:Int).toNat ∧
    (chunk [0,1,2,3,4] 2).flatten = [0,1,2,3,4] := by
  refine ⟨(chunk_balanced_partition [5,6,7] 1).1 (by decide), ?_⟩
  obtain ⟨h1, h2, -, -⟩ :=
    (chunk_balanced_partition [0,1,2,3,4] 2).2.1 (by decide) (by decide)
  exact ⟨h1, h2⟩

/-! ## Concurrency grouping (src/sharding/Admiral.mjs 1878-1888 and 611-629) -/

/-- The loop body of `Admiral.chunkConcurrencyGroups`: for `i` from the
current index, `remaining` more iterations, carrying `currentGroup`;
`if (i - currentGroup * maxConcurrency === maxConcurrency) currentGroup++`
then `clusterGroupMap.set(i, currentGroup)`.  The subtraction is JS number
arithmetic, so it is done in `Int`. -/
def chunkConcurrencyGroupsGo : Nat → Nat → Nat → Nat → List (Nat × Nat)
  | 0, _, _, _ => []
  | n + 1, i, g, mc =>
    let g' := if (i : Int) - g * mc = mc then g + 1 else g
    (i, g') :: chunkConcurrencyGroupsGo n (i + 1) g' mc

/-- `Admiral.chunkConcurrencyGroups()`: the map from clusterID to concurrency
group, built for `clusterCount` clusters with the given `maxConcurrency`. -/
def chunkConcurrencyGroups (clusterCount maxConcurrency : Nat) : List (Nat × Nat) :=
  chunkConcurrencyGroupsGo clusterCount 0 0 maxConcurrency

/-- The group-start test in the queue "execute" handler (Admiral.mjs 619):
`(currentClusterID & this.maxConcurrency) === 0` — a *bitwise* AND. -/
def bitwiseGroupStart (clusterID maxConcurrency : Nat) : Bool :=
  clusterID &&& maxConcurrency == 0

/-- `chunkConcurrencyGroups` computes `groupOf(i) = i / maxConcurrency`. -/
theorem ccgGo_get : ∀ (k i g mc : Nat), 1 ≤ mc → mc * g ≤ i → i ≤ mc * (g + 1) →
    ∀ j, i ≤ j → j < i + k →
    jsGet (chunkConcurrencyGroupsGo k i g mc) j = some (j / mc) := by
  intro k
  induction k with
  | zero => omega
  | succ k ih =>
    intro i g mc hmc hlo hhi j hj1 hj2
    have hmul : mc * (g + 1) = mc * g + mc := by ring
    have hcond : ((i : Int) - g * mc = mc) ↔ (i = mc * g + mc) := by
      have hcast : ((g : Int) * mc) = ((mc * g : Nat) : Int) := by push_cast; ring
      rw [hcast]
      omega
    by_cases heq : (i : Int) - g * mc = mc
    · have hieq : i = mc * g + mc := hcond.mp heq
      have hdiv : i / mc = g + 1 := by
        rw [hieq]
        rw [Nat.mul_comm mc g]
        rw [Nat.add_div_right _ (by omega), Nat.mul_div_cancel _ (by omega)]
      simp only [chunkConcurrencyGroupsGo, heq, if_true, jsGet]
      by_cases hji : j = i
      · subst hji
        simp [List.find?, hdiv]
      · have hj : i + 1 ≤ j := by omega
        have := ih (i + 1) (g + 1) mc hmc (by omega)
          (by rw [show mc * (g + 1 + 1) = mc * (g + 1) + mc by ring]; omega) j hj (by omega)
        simp only [jsGet] at this
        simp only [List.find?]
        have hne : (i == j) = false := by simp [Ne.symm hji]
        rw [hne]
        exact this
    · have hlt : i < mc * g + mc := by
        rcases Nat.lt_or_ge i (mc * g + mc) with h | h
        · exact h
        · exfalso
          have : i = mc * g + mc := by omega
          exact heq (hcond.mpr this)
      have hdiv : i / mc = g := by
        refine Nat.div_eq_of_lt_le (by rw [Nat.mul_comm]; exact hlo) ?_
        calc i < mc * g + mc := hlt
          _ = Nat.succ g * mc := by rw [Nat.succ_eq_add_one]; ring
      simp only [chunkConcurrencyGroupsGo, heq, if_false, jsGet]
      by_cases hji : j = i
      · subst hji
        simp [List.find?, hdiv]
      · have hj : i + 1 ≤ j := by omega
        have := ih (i + 1) g mc hmc (by omega) (by omega) j hj (by omega)
        simp only [jsGet] at this
        simp only [List.find?]
        have hne : (i == j) = false := by simp [Ne.symm hji]
        rw [hne]
        exact this

theorem chunkConcurrencyGroups_get (n mc i : Nat) (hmc : 1 ≤ mc) (hi : i < n) :
    jsGet (chunkConcurrencyGroups n mc) i = some (i / mc) :=
  ccgGo_get n 0 0 mc hmc (by omega) (by omega) i (by omega) (by omega)

/-! ### C9 -/

/-- **C9.** The dispatch-time group-start test `(clusterID & maxConcurrency)
=== 0` (bitwise AND, Admiral.mjs 619) disagrees with the modulo/division
grouping computed by `chunkConcurrencyGroups`: for clusterID 1 with
maxConcurrency 2, the bitwise test reports a group start (`1 AND 2 = 0`)
although `1 % 2 ≠ 0` and `chunkConcurrencyGroups` places cluster 1 in the
same group as cluster 0 (so it is not the first member of its group). -/
theorem bitwise_group_check_disagrees :
    ∃ clusterID maxConcurrency : Nat,
      bitwiseGroupStart clusterID maxConcurrency = true ∧
      clusterID % maxConcurrency ≠ 0 ∧
      jsGet (chunkConcurrencyGroups 4 maxConcurrency) clusterID =
        jsGet (chunkConcurrencyGroups 4 maxConcurrency) 0 :=
  ⟨1, 2, by decide, by decide, by decide⟩

/-! ## Serialization helpers (src/util/Serialization.mjs)

`stringifyJSON` is `JSON.stringify` with a replacer that encodes `bigint`
values as the string `"BIGINT::" + value` and `undefined` as the string
`"UNDEFINED::"`; `parseJSON` is `JSON.parse` with a reviver that decodes
those prefixes back (`BigInt(value.substring(8))`, resp. `undefined`).

JS strings are modelled as `List Char`.  The JSON text itself is not
modelled: `JSON.parse` is the inverse of `JSON.stringify` on plain JSON
trees (the contract of the external JSON library), so the composite
`parseJSON ∘ stringifyJSON` is modelled as the reviver mapped over the tree
produced by mapping the replacer — `JValue` is the value domain handled by
the replacer (JSON values plus `bigint` and `undefined`), `JRepr` a plain
JSON tree.

Two JS semantic details are modelled faithfully:
* `JSON.parse` *deletes* an object property when the reviver returns
  `undefined`, so an `"UNDEFINED::"` string in object position removes the
  field; in array position the element reads as `undefined` (kept as
  `jundef`).
* `BigInt(s)` on a malformed numeric string throws — modelled by
  `charsToInt` returning `none`, which propagates as `parseJSON = none`
  (`BigInt("")` is `0n`; a leading `-` or `+` with digits is accepted). -/

/-- Decimal digit to character, as produced by the JS template `${value}`. -/
def digitToChar : Nat → Char
  | 0 => '0' | 1 => '1' | 2 => '2' | 3 => '3' | 4 => '4'
  | 5 => '5' | 6 => '6' | 7 => '7' | 8 => '8' | _ => '9'

def charDigit? (c : Char) : Option Nat :=
  if 48 ≤ c.toNat ∧ c.toNat ≤ 57 then some (c.toNat - 48) else none

/-- Decimal digits of `n`, most significant first; `fuel` bounds the
recursion (any `fuel > n` suffices since `n/10 < n`). -/
def natToCharsGo : Nat → Nat → List Char
  | 0, _ => []
  | fuel + 1, n =>
    if n < 10 then [digitToChar n]
    else natToCharsGo fuel (n / 10) ++ [digitToChar (n % 10)]

def natToChars (n : Nat) : List Char := natToCharsGo (n + 1) n

def digitsToNatCore (acc : Nat) : List Char → Option Nat
  | [] => some acc
  | c :: cs =>
    match charDigit? c with
    | some d => digitsToNatCore (acc * 10 + d) cs
    | none => none

/-- `BigInt(string)` (decimal part of the StringNumericLiteral grammar):
empty string is `0n`, an optional sign followed by decimal digits;
anything else throws (`none`). -/
def charsToInt (s : List Char) : Option Int :=
  match s with
  | [] => some 0
  | c :: rest =>
    if c = '-' then
      if rest.isEmpty then none
      else
        match digitsToNatCore 0 rest with
        | some n => some (-(n : Int))
        | none => none
    else if c = '+' then
      if rest.isEmpty then none
      else
        match digitsToNatCore 0 rest with
        | some n => some ((n : Int))
        | none => none
    else
      match digitsToNatCore 0 (c :: rest) with
      | some n => some ((n : Int))
      | none => none

/-- The JS template `${value}` on a bigint: decimal digits with a leading
`-` for negatives. -/
def intToChars (i : Int) : List Char :=
  if i < 0 then '-' :: natToChars i.natAbs else natToChars i.toNat

theorem charDigit_digitToChar (m : Nat) (h : m < 10) :
    charDigit? (digitToChar m) = some m := by
  interval_cases m <;> decide

theorem digitsToNatCore_append (acc : Nat) (l1 l2 : List Char) :
    digitsToNatCore acc (l1 ++ l2)
      = (digitsToNatCore acc l1).bind (fun a => digitsToNatCore a l2) := by
  induction l1 generalizing acc with
  | nil => rfl
  | cons c cs ih =>
    simp only [List.cons_append, digitsToNatCore]
    cases charDigit? c
    · rfl
    · exact ih _

theorem digitsToNatCore_natToCharsGo : ∀ (fuel m : Nat), m < fuel →
    digitsToNatCore 0 (natToCharsGo fuel m) = some m := by
  intro fuel
  induction fuel with
  | zero => omega
  | succ fuel ih =>
    intro m hm
    by_cases h : m < 10
    · rw [natToCharsGo, if_pos h]
      simp [digitsToNatCore, charDigit_digitToChar m h]
    · rw [natToCharsGo, if_neg h]
      rw [digitsToNatCore_append]
      have hlt : m / 10 < fuel := by
        have := Nat.div_lt_self (by omega : 0 < m) (by omega : 1 < 10)
        omega
      rw [ih (m / 10) hlt]
      simp only [Option.some_bind, digitsToNatCore,
        charDigit_digitToChar (m % 10) (Nat.mod_lt _ (by omega))]
      congr 1
      omega

theorem digitsToNatCore_natToChars (m : Nat) :
    digitsToNatCore 0 (natToChars m) = some m :=
  digitsToNatCore_natToCharsGo (m + 1) m (by omega)

theorem natToCharsGo_all_digits : ∀ (fuel m : Nat), m < fuel →
    ∀ c ∈ natToCharsGo fuel m, (charDigit? c).isSome := by
  intro fuel
  induction fuel with
  | zero => omega
  | succ fuel ih =>
    intro m hm c hc
    by_cases h : m < 10
    · rw [natToCharsGo, if_pos h] at hc
      simp only [List.mem_singleton] at hc
      subst hc
      rw [charDigit_digitToChar m h]
      rfl
    · rw [natToCharsGo, if_neg h] at hc
      rcases List.mem_append.mp hc with hc | hc
      · have hlt : m / 10 < fuel := by
          have := Nat.div_lt_self (by omega : 0 < m) (by omega : 1 < 10)
          omega
        exact ih (m / 10) hlt c hc
      · simp only [List.mem_singleton] at hc
        subst hc
        rw [charDigit_digitToChar (m % 10) (Nat.mod_lt _ (by omega))]
        rfl

theorem natToChars_all_digits (m : Nat) :
    ∀ c ∈ natToChars m, (charDigit? c).isSome :=
  natToCharsGo_all_digits (m + 1) m (by omega)

theorem natToChars_ne_nil (m : Nat) : natToChars m ≠ [] := by
  unfold natToChars natToCharsGo
  by_cases h : m < 10 <;> simp [h]

/-- `BigInt` parses back exactly what the template printed. -/
theorem charsToInt_intToChars (i : Int) : charsToInt (intToChars i) = some i := by
  by_cases hneg : i < 0
  · simp only [intToChars, if_pos hneg, charsToInt, if_true]
    rw [if_neg (by simp only [List.isEmpty_iff]; exact natToChars_ne_nil _)]
    rw [digitsToNatCore_natToChars]
    simp only [Option.some.injEq]
    omega
  · simp only [intToChars, if_neg hneg]
    rcases hl : natToChars i.toNat with _ | ⟨c, rest⟩
    · exact absurd hl (natToChars_ne_nil _)
    · have hdig : (charDigit? c).isSome := by
        refine natToChars_all_digits i.toNat c ?_
        rw [hl]
        exact List.mem_cons_self _ _
      have hnm : c ≠ '-' := by
        intro hc
        rw [hc] at hdig
        exact absurd hdig (by decide)
      have hnp : c ≠ '+' := by
        intro hc
        rw [hc] at hdig
        exact absurd hdig (by decide)
      simp only [charsToInt, if_neg hnm, if_neg hnp]
      rw [← hl, digitsToNatCore_natToChars]
      simp only [Option.some.injEq]
      omega

/-- The characters of `"BIGINT::"` (length 8, matching `substring(8)`). -/
def bigPrefix : List Char := ['B','I','G','I','N','T',':',':']

/-- The characters of `"UNDEFINED::"`. -/
def undefPrefix : List Char := ['U','N','D','E','F','I','N','E','D',':',':']

mutual
inductive JValue where
  | jnull
  | jbool (b : Bool)
  | jnum (n : Int)
  | jstr (s : List Char)
  | jbig (n : Int)
  | jundef
  | jarr (xs : JArr)
  | jobj (fs : JObj)
inductive JArr where
  | anil
  | acons (hd : JValue) (tl : JArr)
inductive JObj where
  | onil
  | ocons (key : List Char) (val : JValue) (tl : JObj)
end

deriving instance DecidableEq for JValue
deriving instance Repr for JValue

mutual
inductive JRepr where
  | rnull
  | rbool (b : Bool)
  | rnum (n : Int)
  | rstr (s : List Char)
  | rarr (xs : RArr)
  | robj (fs : RObj)
inductive RArr where
  | rnil
  | rcons (hd : JRepr) (tl : RArr)
inductive RObj where
  | ronil
  | rocons (key : List Char) (val : JRepr) (tl : RObj)
end

deriving instance DecidableEq for JRepr
deriving instance Repr for JRepr

mutual
/-- `stringifyJSON(data)`: the replacer applied throughout the tree
(`bigint → "BIGINT::"+v`, `undefined → "UNDEFINED::"`, default: unchanged),
producing the plain JSON tree that `JSON.stringify` then prints. -/
def stringifyJSON : JValue → JRepr
  | .jnull => .rnull
  | .jbool b => .rbool b
  | .jnum n => .rnum n
  | .jstr s => .rstr s
  | .jbig n => .rstr (bigPrefix ++ intToChars n)
  | .jundef => .rstr undefPrefix
  | .jarr xs => .rarr (stringifyArr xs)
  | .jobj fs => .robj (stringifyObj fs)
def stringifyArr : JArr → RArr
  | .anil => .rnil
  | .acons x xs => .rcons (stringifyJSON x) (stringifyArr xs)
def stringifyObj : JObj → RObj
  | .onil => .ronil
  | .ocons k v fs => .rocons k (stringifyJSON v) (stringifyObj fs)
end

mutual
/-- `parseJSON(json)`: the reviver applied throughout the parsed tree
(strings starting `"BIGINT::"` become `BigInt(s.substring(8))`, strings
starting `"UNDEFINED::"` become `undefined`); a reviver returning
`undefined` for an object property makes `JSON.parse` delete that property;
a throwing `BigInt` makes the whole parse throw (`none`). -/
def parseJSON : JRepr → Option JValue
  | .rnull => some .jnull
  | .rbool b => some (.jbool b)
  | .rnum n => some (.jnum n)
  | .rstr s =>
    if bigPrefix.isPrefixOf s then
      match charsToInt (s.drop 8) with
      | some n => some (.jbig n)
      | none => none
    else if undefPrefix.isPrefixOf s then some .jundef
    else some (.jstr s)
  | .rarr xs =>
    match parseArr xs with
    | some vs => some (.jarr vs)
    | none => none
  | .robj fs =>
    match parseObj fs with
    | some vs => some (.jobj vs)
    | none => none
def parseArr : RArr → Option JArr
  | .rnil => some .anil
  | .rcons x xs =>
    match parseJSON x, parseArr xs with
    | some v, some vs => some (.acons v vs)
    | _, _ => none
def parseObj : RObj → Option JObj
  | .ronil => some .onil
  | .rocons k v fs =>
    match parseJSON v, parseObj fs with
    | some v', some fs' =>
      if v' = .jundef then some fs' else some (.ocons k v' fs')
    | _, _ => none
end

mutual
/-- Payload well-formedness for the amended round-trip claim: no string in
the payload starts with `"BIGINT::"` or `"UNDEFINED::"` (such strings are
captured by the reviver), and no object field holds `undefined` (such a
field is deleted by `JSON.parse`'s reviver contract). -/
def wfVal : JValue → Bool
  | .jnull => true
  | .jbool _ => true
  | .jnum _ => true
  | .jstr s => !(bigPrefix.isPrefixOf s) && !(undefPrefix.isPrefixOf s)
  | .jbig _ => true
  | .jundef => true
  | .jarr xs => wfArr xs
  | .jobj fs => wfObj fs
def wfArr : JArr → Bool
  | .anil => true
  | .acons x xs => wfVal x && wfArr xs
def wfObj : JObj → Bool
  | .onil => true
  | .ocons _ v fs => (v ≠ JValue.jundef : Bool) && wfVal v && wfObj fs
end

theorem bigPrefix_isPrefixOf_append (t : List Char) :
    bigPrefix.isPrefixOf (bigPrefix ++ t) = true := by
  rw [List.isPrefixOf_iff_prefix]
  exact List.prefix_append _ _

theorem undefPrefix_not_isPrefixOf_big (t : List Char) :
    undefPrefix.isPrefixOf (bigPrefix ++ t) = false := by
  rfl

theorem drop8_bigPrefix_append (t : List Char) : (bigPrefix ++ t).drop 8 = t := by
  rfl

mutual
theorem parse_stringify_val : ∀ v : JValue, wfVal v = true →
    parseJSON (stringifyJSON v) = some v
  | .jnull, _ => rfl
  | .jbool b, _ => rfl
  | .jnum n, _ => rfl
  | .jstr s, h => by
    simp only [wfVal, Bool.and_eq_true, Bool.not_eq_true'] at h
    simp only [stringifyJSON, parseJSON, h.1, h.2, Bool.false_eq_true, if_false]
  | .jbig n, _ => by
    simp only [stringifyJSON, parseJSON, bigPrefix_isPrefixOf_append, if_true,
      drop8_bigPrefix_append, charsToInt_intToChars]
  | .jundef, _ => by
    simp only [stringifyJSON, parseJSON]
    rfl
  | .jarr xs, h => by
    simp only [stringifyJSON, parseJSON, parse_stringify_arr xs (by simpa [wfVal] using h)]
  | .jobj fs, h => by
    simp only [stringifyJSON, parseJSON, parse_stringify_obj fs (by simpa [wfVal] using h)]
theorem parse_stringify_arr : ∀ xs : JArr, wfArr xs = true →
    parseArr (stringifyArr xs) = some xs
  | .anil, _ => rfl
  | .acons x xs, h => by
    simp only [wfArr, Bool.and_eq_true] at h
    simp only [stringifyArr, parseArr, parse_stringify_val x h.1, parse_stringify_arr xs h.2]
theorem parse_stringify_obj : ∀ fs : JObj, wfObj fs = true →
    parseObj (stringifyObj fs) = some fs
  | .onil, _ => rfl
  | .ocons k v fs, h => by
    simp only [wfObj, Bool.and_eq_true, decide_eq_true_eq] at h
    simp only [stringifyObj, parseObj, parse_stringify_val v h.1.2, parse_stringify_obj fs h.2]
    rw [if_neg h.1.1]
end

/-! ### C10 -/

/-- **C10 counterexample.** The claim promises that every payload built from
JSON-representable values (plus bigints and `undefined`) round-trips
unchanged; but the JSON-representable *string* `"UNDEFINED::x"` is turned
into `undefined` by `parseJSON`'s reviver. -/
theorem serialization_roundtrip_counterexample :
    parseJSON (stringifyJSON
        (.jstr ['U','N','D','E','F','I','N','E','D',':',':','x']))
      = some .jundef ∧
    JValue.jstr ['U','N','D','E','F','I','N','E','D',':',':','x'] ≠ .jundef := by
  decide

/-- **C10 (amended).** For every payload of JSON-representable values
extended with bigints and `undefined`, *in which no string starts with
`"BIGINT::"` or `"UNDEFINED::"` and no object field holds `undefined`*,
`parseJSON(stringifyJSON(payload))` yields the original payload: bigints
are restored as bigints, `undefined` (top-level or in arrays) is restored
as `undefined` (distinguished from `null`), and all other values round-trip
unchanged.  (An `undefined`-valued object field is deleted by `JSON.parse`
when the reviver returns `undefined`, hence the exclusion.) -/
theorem serialization_roundtrip (v : JValue) (h : wfVal v = true) :
    parseJSON (stringifyJSON v) = some v :=
  parse_stringify_val v h

/-- Witness for `serialization_roundtrip` on a payload containing a negative
bigint, an `undefined` array slot, and a string. -/
theorem serialization_roundtrip_witness :
    wfVal (.jobj (.ocons ['a'] (.jbig (-42))
        (.ocons ['b'] (.jarr (.acons .jundef (.acons (.jnum 7) .anil))) .onil))) = true ∧
    parseJSON (stringifyJSON (.jobj (.ocons ['a'] (.jbig (-42))
        (.ocons ['b'] (.jarr (.acons .jundef (.acons (.jnum 7) .anil))) .onil))))
      = some (.jobj (.ocons ['a'] (.jbig (-42))
        (.ocons ['b'] (.jarr (.acons .jundef (.acons (.jnum 7) .anil))) .onil))) :=
  ⟨by decide, serialization_roundtrip _ (by decide)⟩

/-! ## Central request proxy failure path
(src/sharding/Admiral.mjs 1342-1372, src/util/CentralRequestHandler.mjs
34-57, src/util/Serialization.mjs 1-21) -/

/-- The seven fields `errorToJSON` extracts from an `Error`
(`code, errno, message, name, path, stack, syscall`); each may be
`undefined` (`jundef`) when the error does not carry it. -/
structure ErrFields where
  code : JValue
  errno : JValue
  message : JValue
  name : JValue
  path : JValue
  stack : JValue
  syscall : JValue
deriving DecidableEq, Repr

/-- A JS runtime value in this exchange: an `Error` instance, or a plain
(JSON-representable) value.  `JSON.parse` output is always `plain` — there
is no way for `parseJSON` to produce an `Error` instance, which is the crux
of C6. -/
inductive RVal where
  | errInstance (f : ErrFields)
  | plain (v : JValue)
deriving DecidableEq, Repr

def RVal.isError : RVal → Bool
  | .errInstance _ => true
  | .plain _ => false

/-- `errorToJSON(error)`: the plain object literal with the seven fields, in
source order. -/
def errorToJSON (f : ErrFields) : JValue :=
  .jobj (.ocons ['c','o','d','e'] f.code
    (.ocons ['e','r','r','n','o'] f.errno
    (.ocons ['m','e','s','s','a','g','e'] f.message
    (.ocons ['n','a','m','e'] f.name
    (.ocons ['p','a','t','h'] f.path
    (.ocons ['s','t','a','c','k'] f.stack
    (.ocons ['s','y','s','c','a','l','l'] f.syscall .onil)))))))

/-- `reconstructError(data)`: `if (!(data instanceof Error)) return data;`
— a non-`Error` input is returned *unchanged*.  (For an actual `Error`
input it builds a new `Error` and copies the enumerable own entries across;
that branch is unreachable from `JSON.parse` output and is modelled as
field-preserving.) -/
def reconstructError : RVal → RVal
  | .plain v => .plain v
  | .errInstance f => .errInstance f

def convertedKey : List Char :=
  ['c','o','n','v','e','r','t','e','d','E','r','r','o','r','O','b','j','e','c','t']

def errorKey : List Char := ['e','r','r','o','r']

/-- The `catch` handler of `Admiral.centralApiRequest`: build
`{convertedErrorObject, error}`, converting via `errorToJSON` when the
failure is an `Error` instance. -/
def centralApiFailureMessage (error : RVal) : JValue :=
  match error with
  | .errInstance f =>
    .jobj (.ocons convertedKey (.jbool true) (.ocons errorKey (errorToJSON f) .onil))
  | .plain v =>
    .jobj (.ocons convertedKey (.jbool false) (.ocons errorKey v .onil))

def objGetFields : JObj → List Char → Option JValue
  | .onil, _ => none
  | .ocons k v fs, key => if k = key then some v else objGetFields fs key

/-- JS property access `value.key` on a parsed value (`undefined` when the
receiver is not an object or lacks the key). -/
def objGet (v : JValue) (k : List Char) : Option JValue :=
  match v with
  | .jobj fs => objGetFields fs k
  | _ => none

/-- JS truthiness of a property-access result. -/
def truthy : Option JValue → Bool
  | none => false
  | some .jnull => false
  | some .jundef => false
  | some (.jbool b) => b
  | some (.jnum n) => decide (n ≠ 0)
  | some (.jbig n) => decide (n ≠ 0)
  | some (.jstr s) => !s.isEmpty
  | some (.jarr _) => true
  | some (.jobj _) => true

/-- End-to-end failure delivery: the orchestrator serializes the failure
message (`reply(false, msg)` with `stringifyJSON`), the worker parses it
(`parseJSON`) and its callback rejects with
`reconstructError(value.error)` when `value.convertedErrorObject` is
truthy, with `value.error` otherwise.  `none` models a throwing
`JSON.parse` in the worker. -/
def centralFailureDelivered (error : RVal) : Option RVal :=
  let msg := centralApiFailureMessage error
  match parseJSON (stringifyJSON msg) with
  | none => none
  | some value =>
    if truthy (objGet value convertedKey) then
      some (reconstructError (.plain ((objGet value errorKey).getD .jundef)))
    else
      some (.plain ((objGet value errorKey).getD .jundef))

/-! ### C6 -/

/-- **C6.** For a central proxied call failing with
`Error { message: "boom", stack: "trace", code: "E42" }`, the worker's
pending continuation is rejected with the *plain deserialized object*
carrying those fields (the `undefined` fields having been dropped by the
reviver), **not** with a reconstructed `Error` instance:
`reconstructError` returns non-`Error` input unchanged, and `JSON.parse`
output is never an `Error` instance, so the claimed reconstruction never
happens. -/
theorem central_api_failure_rejects_plain_object :
    centralFailureDelivered (.errInstance
        ⟨.jstr ['E','4','2'], .jundef, .jstr ['b','o','o','m'], .jundef, .jundef,
          .jstr ['t','r','a','c','e'], .jundef⟩)
      = some (.plain (.jobj (.ocons ['c','o','d','e'] (.jstr ['E','4','2'])
          (.ocons ['m','e','s','s','a','g','e'] (.jstr ['b','o','o','m'])
          (.ocons ['s','t','a','c','k'] (.jstr ['t','r','a','c','e']) .onil))))) ∧
    (centralFailureDelivered (.errInstance
        ⟨.jstr ['E','4','2'], .jundef, .jstr ['b','o','o','m'], .jundef, .jundef,
          .jstr ['t','r','a','c','e'], .jundef⟩)).map RVal.isError = some false := by
  decide

/-! ## Targeted fetch (src/sharding/Admiral.mjs 2187-2211 `fetchInfo`,
1300-1341 `ipcReturn`)

The correlation key `JSON.stringify({id, UUID})` is modelled as the pair
`(id, UUID)`; worker ids and request ids are `Nat` (the `"master"` pseudo
worker is out of scope — its reply path emits on the local `ipc` instead of
`worker.send`).  Fetched values are abstracted to `Nat`.  `setTimeout` is
an external event (`fetchTimeout`), fired only if the timer was armed by a
`fetchInfo` call. -/

/-- A `FetchEntry`: `{UUID, op, id, checked}`. -/
structure FetchEntry where
  uuid : Nat
  op : Nat
  id : Nat
  checked : Nat
deriving DecidableEq, Repr

/-- A `return` message delivered to the requesting worker: `null` or a
non-empty value. -/
inductive RetVal where
  | rnull
  | rval (v : Nat)
deriving DecidableEq, Repr

structure FetchState where
  /-- `Admiral.fetches`. -/
  fetches : List ((Nat × Nat) × FetchEntry)
  /-- `Admiral.clusters` projected to `clusterID ↦ workerID`. -/
  clusters : List (Nat × Nat)
  /-- `Admiral.launchingWorkers` projected to `workerID ↦ (is it a cluster)`. -/
  launchingWorkers : List (Nat × Bool)
  /-- `master.workers` keys. -/
  liveWorkers : List Nat
  /-- `return` messages sent to requesting workers: `(workerID, id, value)`. -/
  sent : List (Nat × Nat × RetVal)
  /-- fetch broadcasts sent to cluster workers: `(workerID, id)`. -/
  sentToClusters : List (Nat × Nat)
deriving DecidableEq, Repr

/-- `let clustersLaunching = 0; launchingWorkers.forEach(w => { if (w.cluster)
clustersLaunching++ })`. -/
def launchingClusterCount (s : FetchState) : Nat :=
  (s.launchingWorkers.filter (fun p => p.2)).length

/-- `sendReturn` for a worker `UUID`: looked up in `master.workers`, sent
only when alive. -/
def fetchSendReturn (s : FetchState) (uuid id : Nat) (v : RetVal) : FetchState :=
  if uuid ∈ s.liveWorkers then { s with sent := s.sent ++ [(uuid, id, v)] } else s

/-- `ipcReturn` with `message.value.noValue` set. -/
def ipcReturnNoValue (s : FetchState) (id uuid : Nat) : FetchState :=
  match jsGet s.fetches (id, uuid) with
  | some fetch =>
    if fetch.checked + 1 = s.clusters.length + launchingClusterCount s then
      let s' := fetchSendReturn s uuid id .rnull
      { s' with fetches := jsDelete s'.fetches (id, uuid) }
    else
      { s with fetches := jsSet s.fetches (id, uuid) { fetch with checked := fetch.checked + 1 } }
  | none => s

/-- `ipcReturn` with a non-empty value: delete the entry (present or not)
and forward the value — there is *no* existence check on this branch. -/
def ipcReturnValue (s : FetchState) (id uuid : Nat) (v : Nat) : FetchState :=
  let s' := { s with fetches := jsDelete s.fetches (id, uuid) }
  fetchSendReturn s' uuid id (.rval v)

/-- The `setTimeout` body in `fetchInfo`: if the entry still exists, delete
it and send `null` to the captured `requestWorker` handle (sent without a
fresh `master.workers` lookup). -/
def fetchTimeout (s : FetchState) (id uuid : Nat) : FetchState :=
  if (jsGet s.fetches (id, uuid)).isSome then
    { s with
      fetches := jsDelete s.fetches (id, uuid),
      sent := s.sent ++ [(uuid, id, RetVal.rnull)] }
  else s

/-- The send loop of `fetchInfo`: `for (let i = 0; this.clusters.get(i); i++)`
— stops at the first missing clusterID; `fuel` bounds iterations (the loop
visits at most as many ids as there are clusters). -/
def fetchSendLoop (id : Nat) : FetchState → Nat → Nat → FetchState
  | s, 0, _ => s
  | s, fuel + 1, i =>
    match jsGet s.clusters i with
    | none => s
    | some wid =>
      let s' := if wid ∈ s.liveWorkers
        then { s with sentToClusters := s.sentToClusters ++ [(wid, id)] } else s
      fetchSendLoop id s' fuel (i + 1)

/-- `Admiral.fetchInfo(op, id, requestWorker)`: register the entry with
`checked = 0`, broadcast to clusters `0, 1, …` until a gap, arm the
timeout. -/
def fetchInfo (s : FetchState) (op id uuid : Nat) : FetchState :=
  let s' := { s with fetches := jsSet s.fetches (id, uuid) ⟨uuid, op, id, 0⟩ }
  fetchSendLoop id s' s'.clusters.length 0

/-- The state after the entry for `(id, uuid)` has been removed. -/
def dropFetch (s : FetchState) (id uuid : Nat) : FetchState :=
  { s with fetches := jsDelete s.fetches (id, uuid) }

/-! ### helper lemmas on the assoc-list Map model -/

theorem jsGet_set_self [BEq α] [LawfulBEq α] (m : List (α × β)) (k : α) (v : β) :
    jsGet (jsSet m k v) k = some v := by
  induction m with
  | nil => simp [jsSet, jsGet, List.find?]
  | cons p rest ih =>
    by_cases h : p.1 == k
    · simp [jsSet, h, jsGet, List.find?]
    · simp only [jsSet, h, Bool.false_eq_true, if_false]
      simp only [jsGet, List.find?, h] at ih ⊢
      exact ih

theorem jsGet_delete_self [BEq α] [LawfulBEq α] (m : List (α × β)) (k : α)
    (hnodup : (m.map Prod.fst).Nodup) : jsGet (jsDelete m k) k = none := by
  induction m with
  | nil => rfl
  | cons p rest ih =>
    simp only [List.map_cons, List.nodup_cons] at hnodup
    by_cases h : p.1 == k
    · simp only [jsDelete, h, if_true]
      have hk : p.1 = k := by simpa using h
      subst hk
      simp only [jsGet]
      rcases hf : rest.find? (fun q => q.1 == p.1) with _ | q
      · rw [hf]
      · exfalso
        have hmem := List.find?_some hf
        have hqmem := List.mem_of_find?_eq_some hf
        refine hnodup.1 ?_
        have : q.1 = p.1 := by simpa using hmem
        rw [← this]
        exact List.mem_map_of_mem Prod.fst hqmem
    · simp only [jsDelete, h, Bool.false_eq_true, if_false]
      simp only [jsGet, List.find?, h]
      exact ih hnodup.2

/-! ### C5 -/

/-- **C5 counterexample.** The claim says a reply arriving after resolution
changes nothing (silent no-op).  Launch a fetch with no live clusters
(requester worker 1, request id 7), let the fetch timeout resolve `null`;
a *value* reply arriving afterwards is still forwarded to the requester —
the worker is sent two answers, because the value branch of `ipcReturn`
never checks whether the FetchEntry still exists. -/
theorem fetch_late_value_counterexample :
    (ipcReturnValue (fetchTimeout (fetchInfo ⟨[], [], [], [1], [], []⟩ 5 7 1) 7 1) 7 1 99).sent
        = [(1, 7, RetVal.rnull), (1, 7, RetVal.rval 99)] ∧
    (ipcReturnValue (fetchTimeout (fetchInfo ⟨[], [], [], [1], [], []⟩ 5 7 1) 7 1) 7 1 99).sent.length
        ≠ 1 := by
  decide

/-- **C5 (amended).** For a targeted fetch with a live FetchEntry: the final
"no value" report resolves `null` to the requester exactly once and removes
the entry; an interim "no value" report sends nothing and only bumps the
counter; a non-empty value reply is forwarded and removes the entry; the
fetch timeout resolves `null` once and removes the entry.  After the entry
is gone, late *no-value* reports and late timers are silent no-ops — but a
late non-empty value reply is still forwarded to the requesting worker
unconditionally (deduplication happens only in the worker-side correlation
map), which is the one divergence from the original claim. -/
theorem fetch_resolution (s : FetchState) (id uuid : Nat) (fe : FetchEntry) (v : Nat)
    (hkey : jsGet s.fetches (id, uuid) = some fe)
    (hnodup : (s.fetches.map Prod.fst).Nodup)
    (hlive : uuid ∈ s.liveWorkers) :
    (fe.checked + 1 = s.clusters.length + launchingClusterCount s →
      (ipcReturnNoValue s id uuid).sent = s.sent ++ [(uuid, id, RetVal.rnull)] ∧
      jsGet (ipcReturnNoValue s id uuid).fetches (id, uuid) = none) ∧
    (fe.checked + 1 ≠ s.clusters.length + launchingClusterCount s →
      (ipcReturnNoValue s id uuid).sent = s.sent ∧
      jsGet (ipcReturnNoValue s id uuid).fetches (id, uuid)
        = some { fe with checked := fe.checked + 1 }) ∧
    ((ipcReturnValue s id uuid v).sent = s.sent ++ [(uuid, id, RetVal.rval v)] ∧
      jsGet (ipcReturnValue s id uuid v).fetches (id, uuid) = none) ∧
    ((fetchTimeout s id uuid).sent = s.sent ++ [(uuid, id, RetVal.rnull)] ∧
      jsGet (fetchTimeout s id uuid).fetches (id, uuid) = none) ∧
    ipcReturnNoValue (dropFetch s id uuid) id uuid = dropFetch s id uuid ∧
    fetchTimeout (dropFetch s id uuid) id uuid = dropFetch s id uuid ∧
    (ipcReturnValue (dropFetch s id uuid) id uuid v).sent
      = s.sent ++ [(uuid, id, RetVal.rval v)] := by
  have hdel : jsGet (jsDelete s.fetches (id, uuid)) (id, uuid) = none :=
    jsGet_delete_self _ _ hnodup
  refine ⟨fun hc => ?_, fun hc => ?_, ⟨?_, ?_⟩, ⟨?_, ?_⟩, ?_, ?_, ?_⟩
  · simp [ipcReturnNoValue, hkey, hc, fetchSendReturn, hlive, hdel]
  · simp [ipcReturnNoValue, hkey, hc, fetchSendReturn, hlive, jsGet_set_self]
  · simp [ipcReturnValue, fetchSendReturn, hlive]
  · simp [ipcReturnValue, fetchSendReturn, hlive, hdel]
  · simp [fetchTimeout, hkey]
  · simp [fetchTimeout, hkey, hdel]
  · simp [ipcReturnNoValue, dropFetch, hdel]
  · simp [fetchTimeout, dropFetch, hdel]
  · simp [ipcReturnValue, dropFetch, fetchSendReturn, hlive]

/-- Witness for `fetch_resolution` at a concrete state: one registered
cluster, entry with `checked = 0`, live requester. -/
theorem fetch_resolution_witness :
    (ipcReturnNoValue ⟨[((7, 1), ⟨1, 5, 7, 0⟩)], [(0, 2)], [], [1, 2], [], []⟩ 7 1).sent
        = [(1, 7, RetVal.rnull)] ∧
    jsGet (ipcReturnValue ⟨[((7, 1), ⟨1, 5, 7, 0⟩)], [(0, 2)], [], [1, 2], [], []⟩
        7 1 99).fetches (7, 1) = none := by
  have h := fetch_resolution ⟨[((7, 1), ⟨1, 5, 7, 0⟩)], [(0, 2)], [], [1, 2], [], []⟩
    7 1 ⟨1, 5, 7, 0⟩ 99 (by decide) (by decide) (by decide)
  refine ⟨?_, h.2.2.1.2⟩
  have h1 := h.1 (by decide)
  simpa using h1.1

/-! ## The orchestrator state machine (src/sharding/Admiral.mjs)

A shallow embedding of the Admiral's master-side message handlers
(`launched`, `connected`, `codeLoaded`, `shutdown` acknowledgment, worker
`exit`), its queue `"execute"` subscriber, `shutdownWorker` (soft path),
`restartWorker` (hard path, as called from the `exit` handler), and the two
timers (`killTimeout` after dispatching a shutdown, and the
group-advance `setTimeout(() => queue.execute(), clusterTimeout)`).

Modelling notes:
* `EventEmitter.emit` is synchronous, so `Queue.execute` runs the Admiral's
  `"execute"` subscriber inline, which may call `Queue.execute` again (the
  concurrency chaining); this synchronous cascade is a fuelled recursion —
  every nested `execute(false)` removes a queue item, so any
  `fuel > queue.length` is never exhausted.
* Soft-kill continuations (`SoftKillEntry.fn`) are closures in the source;
  they are defunctionalised as `SKEntry` and interpreted by `applySKA`.
* `setTimeout` callbacks are pending `Timer`s fired by an external
  scheduler event; a timer fires at most once (it is consumed).
* A JS `TypeError` from an `undefined` member access
  (`queue.queue[0].workerID` on an empty queue,
  `launchedWorker.cluster.clusterID` for a service) aborts the rest of the
  handler; the `crashed` flag records it (the Admiral installs an
  `uncaughtException` handler that only logs, so the process survives).
* The stats subsystem, logging, and event broadcasting to workers have no
  bearing on any claim; emitted Admiral events are recorded in `events`,
  log lines are not modelled. -/

structure ClusterRecord where
  workerID : Nat
  clusterID : Nat
  firstShardID : Nat
  lastShardID : Nat
deriving DecidableEq, Repr

structure ServiceRecord where
  workerID : Nat
  serviceName : String
deriving DecidableEq, Repr

/-- A `LaunchingEntry` (value of `Admiral.launchingWorkers`). -/
inductive LaunchedWorker where
  | lcluster (rec : ClusterRecord)
  | lservice (rec : ServiceRecord)
deriving DecidableEq, Repr

/-- A value of `Admiral.launchingManager`: the string `"launched"`, or an
object with a `waiting` closure (which sends the captured item's connect
message and then runs the concurrency closure). -/
inductive LMEntry where
  | launched
  | waiting (item : QItem)
deriving DecidableEq, Repr

/-- A `SoftKillEntry`, defunctionalised: which continuation `fn` is, plus
the optional completion callback (identified by a number so its invocation
is observable). -/
inductive SKEntry where
  | skCluster (rec : ClusterRecord) (cb : Option Nat)
  | skService (rec : ServiceRecord) (cb : Option Nat)
deriving DecidableEq, Repr

/-- A message sent to a worker process. -/
inductive SentMsg where
  | qmsg (m : QMsg)
  | loadCode
  | fetch (fid : Nat)
deriving DecidableEq, Repr

/-- A pending `setTimeout`. -/
inductive Timer where
  | killTimer (item : QItem)
  | groupAdvance
deriving DecidableEq, Repr

structure AState where
  clusters : List (Nat × ClusterRecord)
  services : List (String × ServiceRecord)
  launchingWorkers : List (Nat × LaunchedWorker)
  launchingManager : List (Nat × LMEntry)
  softKills : List (Nat × SKEntry)
  connectedClusterGroups : List (Nat × Nat)
  clustersSeqFailedRestarts : List (Nat × Nat)
  servicesSeqFailedRestarts : List (String × Nat)
  queue : QueueState
  maxConcurrency : Nat
  maxRestarts : Int
  clusterCount : Nat
  startServicesTogether : Bool
  servicesToCreate : Option (List String)
  resharding : Bool
  /-- pending fetch broadcasts (`Admiral.fetches`), by id. -/
  fetches : List Nat
  /-- `master.workers` keys: forked and not yet exited/killed. -/
  liveWorkers : List Nat
  /-- next id `master.fork` will assign. -/
  nextWorkerID : Nat
  /-- observable: `worker.send` calls. -/
  sent : List (Nat × SentMsg)
  /-- observable: effective `worker.kill` terminations. -/
  killed : List Nat
  /-- observable: terminations performed by the kill-timer path. -/
  timerForcedKills : List Nat
  /-- observable: SoftKillEntry continuation invocations `(wid, failed)`. -/
  fnInvoked : List (Nat × Bool)
  /-- observable: completion callbacks run. -/
  cbInvoked : List Nat
  timers : List Timer
  /-- observable: events emitted on the Admiral emitter. -/
  events : List String
  crashed : Bool
deriving DecidableEq, Repr

def QMsg.clusterID? : QMsg → Option Nat
  | .connectCluster c => some c
  | _ => none

def QMsg.serviceName? : QMsg → Option String
  | .connectService nm => some nm
  | _ => none

/-- `Object.entries` applied to a JS `Map` instance.  A `Map` keeps its
entries in internal slots, not as own enumerable properties, so this is
always the empty array — the root cause of C1. -/
def objectEntriesOfMap (_m : List (Nat × Nat)) : List (Nat × Nat) := []

def sendA (s : AState) (wid : Nat) (m : SentMsg) : AState :=
  { s with sent := s.sent ++ [(wid, m)] }

def emitA (s : AState) (e : String) : AState :=
  { s with events := s.events ++ [e] }

/-- `worker.kill()`: terminates the process if it is still alive; killing an
already-dead process is a no-op (`ChildProcess.kill` on an exited child). -/
def killA (s : AState) (wid : Nat) : AState :=
  if wid ∈ s.liveWorkers then
    { s with liveWorkers := s.liveWorkers.erase wid, killed := s.killed ++ [wid] }
  else s

def invokeCb (s : AState) (cb : Option Nat) : AState :=
  match cb with
  | some i => { s with cbInvoked := s.cbInvoked ++ [i] }
  | none => s

/-- The `concurrency` closure inside the `"execute"` subscriber: dispatch
the next queue item together with the current one when both belong to the
same concurrency group (clusters) or to different services with
`startServicesTogether`.  `exec` is the continuation `() =>
this.queue.execute()` — the synchronous advance the closure may trigger. -/
def concurrencyCore (exec : AState → AState) (s : AState) (item : QItem) : AState :=
  match s.queue.items.get? 1 with
  | none => s
  | some next =>
    if item.type = WType.service then
      if s.startServicesTogether then
        if next.type = WType.service then
          if item.msg.serviceName? ≠ next.msg.serviceName? then exec s else s
        else s
      else s
    else
      if item.type = WType.cluster then
        if next.type = WType.cluster then
          let map := chunkConcurrencyGroups s.clusterCount s.maxConcurrency
          let cg := (item.msg.clusterID?).bind (jsGet map)
          let ng := (next.msg.clusterID?).bind (jsGet map)
          if cg = ng then exec s else s
        else s
      else s

/-- `Queue.execute(first, override)` with the Admiral's `"execute"`
subscriber (Admiral.mjs 596-679) run synchronously by `emit`.  `fuel`
bounds the synchronous chaining; every nested call removes an item, so any
`fuel > queue.length` behaves like unbounded recursion. -/
def execQueueA : Nat → AState → Bool → Option String → AState
  | 0, s, _, _ => s
  | fuel' + 1, s, first, override =>
    if Queue.gateBlocks s.queue override then s
    else
      let items' := if first then s.queue.items else s.queue.items.drop 1
      let s1 := { s with queue := { s.queue with items := items' } }
      match items'.head? with
      | none => s1
      | some item =>
        if item.workerID ∈ s1.liveWorkers then
          match item.msg with
          | .shutdown =>
            let s2 := sendA s1 item.workerID (.qmsg item.msg)
            { s2 with timers := s2.timers ++ [Timer.killTimer item] }
          | _ =>
            match jsGet s1.launchingManager item.workerID with
            | some _ =>
              let s2 := sendA s1 item.workerID (.qmsg item.msg)
              let s3 := { s2 with
                launchingManager := jsDelete s2.launchingManager item.workerID }
              concurrencyCore (fun st => execQueueA fuel' st false none) s3 item
            | none =>
              { s1 with
                launchingManager := jsSet s1.launchingManager item.workerID (.waiting item) }
        else s1

/-- Interpret a `SoftKillEntry.fn` (registered by `shutdownWorker`'s soft
path, Admiral.mjs 1951-1974 for clusters, 1993-2013 for services).  The
cluster continuation kills the worker only on the cooperative (`!failed`)
path; the service continuation kills unconditionally. -/
def applySKA (fuel : Nat) (s : AState) (wid : Nat) (sk : SKEntry) (failed : Bool) :
    AState :=
  let s0 := { s with fnInvoked := s.fnInvoked ++ [(wid, failed)] }
  match sk with
  | .skCluster rec cb =>
    let s1 := { s0 with
      clusters := jsDelete s0.clusters rec.clusterID,
      launchingWorkers := jsDelete s0.launchingWorkers wid }
    let s2 := { s1 with softKills := jsDelete s1.softKills wid }
    let s3 := if failed then s2 else killA (emitA s2 "clusterShutdown") wid
    let s4 := execQueueA fuel s3 false (some "shutdownWorker")
    invokeCb s4 cb
  | .skService rec cb =>
    let s1 := { s0 with
      services := jsDelete s0.services rec.serviceName,
      launchingWorkers := jsDelete s0.launchingWorkers wid }
    let s2 := { s1 with softKills := jsDelete s1.softKills wid }
    let s3 := emitA (killA s2 wid) "serviceShutdown"
    let s4 := execQueueA fuel s3 false (some "shutdownWorker")
    invokeCb s4 cb

/-- The `setTimeout` body armed when a `shutdown` item is dispatched
(Admiral.mjs 648-673): if the same worker still holds the queue head,
force-kill it and invoke the SoftKillEntry continuation with
`failed = true`. -/
def fireKillTimerA (fuel : Nat) (s : AState) (item : QItem) : AState :=
  match s.queue.items.head? with
  | none => s
  | some q0 =>
    if q0.workerID = item.workerID then
      if item.workerID ∈ s.liveWorkers then
        let s1 := killA s item.workerID
        let s2 := { s1 with timerForcedKills := s1.timerForcedKills ++ [item.workerID] }
        match jsGet s2.softKills item.workerID with
        | some sk => applySKA fuel s2 item.workerID sk true
        | none => s2
      else s
    else s

/-- `Queue.item` with the synchronous `"execute"` subscriber. -/
def queueItemA (fuel : Nat) (s : AState) (item : QItem) (override : Option String) :
    AState :=
  if Queue.gateBlocks s.queue override then s
  else
    let s1 := { s with queue := { s.queue with items := s.queue.items ++ [item] } }
    if s1.queue.items.length = 1 then execQueueA fuel s1 true override else s1

/-- `Queue.bulkItems` with the synchronous `"execute"` subscriber. -/
def queueBulkA (fuel : Nat) (s : AState) (items : List QItem) (override : Option String) :
    AState :=
  if Queue.gateBlocks s.queue override then s
  else
    let execute := s.queue.items.length = 0
    let s1 := { s with queue := { s.queue with items := s.queue.items ++ items } }
    if execute then execQueueA fuel s1 true override else s1

/-- The `launched` case of the master message handler (Admiral.mjs
304-315): run the stored `waiting` closure (send the connect message, then
the concurrency closure) and delete the entry; with no entry, record
`"launched"`. -/
def onLaunchedA (fuel : Nat) (s : AState) (wid : Nat) : AState :=
  match jsGet s.launchingManager wid with
  | some lr =>
    let s1 :=
      match lr with
      | .launched => s
      | .waiting item =>
        let sA := sendA s item.workerID (.qmsg item.msg)
        concurrencyCore (fun st => execQueueA fuel st false none) sA item
    { s1 with launchingManager := jsDelete s1.launchingManager wid }
  | none =>
    { s with launchingManager := jsSet s.launchingManager wid .launched }

/-- The tail of the `connected` handler (Admiral.mjs 360-406): the
concurrency-group bookkeeping and the queue advance, run after the registry
updates. -/
def connectedGroupAdvance (fuel : Nat) (s4 : AState) (lw : LaunchedWorker) : AState :=
  match s4.queue.items.get? 1 with
  | some q1 =>
    if q1.type = WType.cluster ∧ (s4.queue.items.get? 0).map QItem.type = some WType.cluster then
      match lw with
      | .lservice _ => { s4 with crashed := true }
      | .lcluster rec =>
        let map := chunkConcurrencyGroups s4.clusterCount s4.maxConcurrency
        match jsGet map rec.clusterID with
        | none => s4
        | some gid =>
          let total := (jsGet s4.connectedClusterGroups gid).getD 0 + 1
          let s5 := { s4 with
            connectedClusterGroups := jsSet s4.connectedClusterGroups gid total }
          let groupMax := ((objectEntriesOfMap map).filter (fun p => p.2 = gid)).length
          if total ≥ groupMax then { s5 with timers := s5.timers ++ [Timer.groupAdvance] }
          else s5
    else
      if s4.startServicesTogether ∧ q1.type = WType.cluster ∧
          (s4.queue.items.get? 0).map QItem.type = some WType.service then
        match s4.servicesToCreate with
        | some stc =>
          if s4.services.length ≥ stc.length then execQueueA fuel s4 false none else s4
        | none => s4
      else execQueueA fuel s4 false none
  | none =>
    let s5 := execQueueA fuel s4 false none
    let s6 := emitA s5 "ready"
    { s6 with connectedClusterGroups := [] }

/-- The `connected` case of the master message handler (Admiral.mjs
316-407): promote the launching entry into the registry (unless a soft
kill is pending), forward pending fetches, send `loadCode`, run a pending
soft-kill continuation, then the concurrency-group bookkeeping and queue
advance. -/
def onConnectedA (fuel : Nat) (s : AState) (wid : Nat) : AState :=
  match jsGet s.launchingWorkers wid with
  | none => s
  | some lw =>
    let s1 :=
      match lw with
      | .lcluster rec =>
        let sA :=
          if (jsGet s.softKills wid).isNone then
            { s with clusters := jsSet s.clusters rec.clusterID { rec with workerID := wid } }
          else s
        let sB := { sA with sent := sA.sent ++ sA.fetches.map (fun fid => (wid, SentMsg.fetch fid)) }
        emitA sB "clusterReady"
      | .lservice rec =>
        let sA :=
          if (jsGet s.softKills wid).isNone then
            { s with services := jsSet s.services rec.serviceName { rec with workerID := wid } }
          else s
        emitA sA "serviceReady"
    let s2 := { s1 with launchingWorkers := jsDelete s1.launchingWorkers wid }
    let s3 :=
      if s2.resharding = false ∧ (jsGet s2.softKills wid).isNone then sendA s2 wid .loadCode
      else s2
    let s4 :=
      match jsGet s3.softKills wid with
      | some sk => applySKA fuel s3 wid sk false
      | none => s3
    connectedGroupAdvance fuel s4 lw

/-- The `codeLoaded` case (Admiral.mjs 409-423): clear the identity's
sequential-failure counter. -/
def onCodeLoadedA (s : AState) (wid : Nat) : AState :=
  match jsFind s.clusters (fun r => r.workerID = wid) with
  | some c =>
    { s with clustersSeqFailedRestarts := jsDelete s.clustersSeqFailedRestarts c.clusterID }
  | none =>
    match jsFind s.services (fun r => r.workerID = wid) with
    | some sv =>
      { s with
        servicesSeqFailedRestarts := jsDelete s.servicesSeqFailedRestarts sv.serviceName }
    | none => s

/-- The `shutdown` acknowledgment case (Admiral.mjs 424-430): look up the
SoftKillEntry of the *queue head's* workerID and run its continuation;
`queue.queue[0].workerID` throws on an empty queue. -/
def onShutdownAckA (fuel : Nat) (s : AState) : AState :=
  match s.queue.items.head? with
  | none => { s with crashed := true }
  | some q0 =>
    match jsGet s.softKills q0.workerID with
    | some sk => applySKA fuel s q0.workerID sk false
    | none => s

/-- `Admiral.restartWorker(worker)` as called from the `exit` handler
(`manual` and `soft` both undefined — the hard path): fork a replacement,
record it in `launchingWorkers`, re-point the registry record at the new
workerID, and return the replacement's connect item. -/
def restartWorkerA (s : AState) (wid : Nat) : AState × Option QItem :=
  match jsFind s.clusters (fun r => r.workerID = wid) with
  | some c =>
    let newWid := s.nextWorkerID
    let s1 := { s with
      liveWorkers := s.liveWorkers ++ [newWid],
      nextWorkerID := newWid + 1 }
    let s2 := { s1 with
      launchingWorkers := jsSet s1.launchingWorkers newWid (.lcluster { c with workerID := newWid }) }
    let s3 := { s2 with clusters := jsDelete s2.clusters c.clusterID }
    let s4 := { s3 with clusters := jsSet s3.clusters c.clusterID { c with workerID := newWid } }
    (s4, some ⟨newWid, .cluster, .connectCluster c.clusterID⟩)
  | none =>
    match jsFind s.services (fun r => r.workerID = wid) with
    | some sv =>
      let newWid := s.nextWorkerID
      let s1 := { s with
        liveWorkers := s.liveWorkers ++ [newWid],
        nextWorkerID := newWid + 1 }
      let s2 := { s1 with
        launchingWorkers := jsSet s1.launchingWorkers newWid (.lservice { sv with workerID := newWid }) }
      let s3 := { s2 with services := jsDelete s2.services sv.serviceName }
      let s4 := { s3 with services := jsSet s3.services sv.serviceName { sv with workerID := newWid } }
      (s4, some ⟨newWid, .service, .connectService sv.serviceName⟩)
    | none => (s, none)

/-- Tail of the `exit` handler: spawn the replacement and enqueue its
connect item. -/
def doRestartA (fuel : Nat) (s : AState) (wid : Nat) : AState :=
  match restartWorkerA s wid with
  | (s', some item) => queueItemA fuel s' item none
  | (s', none) => s'

/-- The maximum-sequential-restarts branch for a cluster (Admiral.mjs
565-574): drop the counter, advance the queue when the dead worker held the
head (`queue.queue[0].workerID` throws on an empty queue), spawn nothing. -/
def maxReachedClusterA (fuel : Nat) (s : AState) (wid : Nat) (c : ClusterRecord) :
    AState :=
  let s1 := { s with
    clustersSeqFailedRestarts := jsDelete s.clustersSeqFailedRestarts c.clusterID }
  match s1.queue.items.head? with
  | none => { s1 with crashed := true }
  | some q0 => if q0.workerID = wid then execQueueA fuel s1 false none else s1

/-- Same for a service (Admiral.mjs 578-587). -/
def maxReachedServiceA (fuel : Nat) (s : AState) (wid : Nat) (sv : ServiceRecord) :
    AState :=
  let s1 := { s with
    servicesSeqFailedRestarts := jsDelete s.servicesSeqFailedRestarts sv.serviceName }
  match s1.queue.items.head? with
  | none => { s1 with crashed := true }
  | some q0 => if q0.workerID = wid then execQueueA fuel s1 false none else s1

/-- The master `exit` handler (Admiral.mjs 542-595).  The exiting worker is
first removed from `master.workers` by the runtime. -/
def onExitA (fuel : Nat) (s : AState) (wid : Nat) : AState :=
  let s0 := { s with liveWorkers := s.liveWorkers.erase wid }
  let cluster := jsFind s0.clusters (fun r => r.workerID = wid)
  let service := jsFind s0.services (fun r => r.workerID = wid)
  match jsGet s0.softKills wid with
  | some sk => applySKA fuel (execQueueA fuel s0 false none) wid sk true
  | none =>
    if s0.maxRestarts ≠ -1 then
      match cluster with
      | some c =>
        let totalRestarts := (jsGet s0.clustersSeqFailedRestarts c.clusterID).getD 0
        if (totalRestarts : Int) ≥ s0.maxRestarts then maxReachedClusterA fuel s0 wid c
        else
          doRestartA fuel
            { s0 with
              clustersSeqFailedRestarts :=
                jsSet s0.clustersSeqFailedRestarts c.clusterID (totalRestarts + 1) }
            wid
      | none =>
        match service with
        | some sv =>
          let totalRestarts := (jsGet s0.servicesSeqFailedRestarts sv.serviceName).getD 0
          if (totalRestarts : Int) ≥ s0.maxRestarts then maxReachedServiceA fuel s0 wid sv
          else
            doRestartA fuel
              { s0 with
                servicesSeqFailedRestarts :=
                  jsSet s0.servicesSeqFailedRestarts sv.serviceName (totalRestarts + 1) }
              wid
        | none => doRestartA fuel s0 wid
    else doRestartA fuel s0 wid

/-- `Admiral.shutdownWorker(worker, soft, callback)` without `customMaps`
(Admiral.mjs 1910-2031): register the SoftKillEntry (soft) or kill at once
(hard), and return the `shutdown` queue item the caller enqueues. -/
def shutdownWorkerA (s : AState) (wid : Nat) (soft : Bool) (cb : Option Nat) :
    AState × QItem :=
  let cluster0 := jsFind s.clusters (fun r => r.workerID = wid)
  let service0 := jsFind s.services (fun r => r.workerID = wid)
  let lw := jsGet s.launchingWorkers wid
  let cluster := match lw with | some (.lcluster rec) => some rec | _ => cluster0
  let service := match lw with | some (.lservice rec) => some rec | _ => service0
  match cluster with
  | some c =>
    if soft then
      ({ s with softKills := jsSet s.softKills wid (.skCluster c cb) },
        ⟨wid, .cluster, .shutdown⟩)
    else
      let s1 := killA s wid
      let s2 := { s1 with clusters := jsDelete s1.clusters c.clusterID }
      (emitA s2 "clusterShutdown", ⟨wid, .cluster, .shutdown⟩)
  | none =>
    match service with
    | some sv =>
      if soft then
        ({ s with softKills := jsSet s.softKills wid (.skService sv cb) },
          ⟨wid, .service, .shutdown⟩)
      else
        let s1 := killA s wid
        let s2 := { s1 with services := jsDelete s1.services sv.serviceName }
        (emitA s2 "serviceShutdown", ⟨wid, .service, .shutdown⟩)
    | none => (s, ⟨wid, .n, .shutdown⟩)

/-- External events driving the orchestrator. -/
inductive AEvent where
  | launched (wid : Nat)
  | connected (wid : Nat)
  | codeLoaded (wid : Nat)
  | shutdownAck
  | exited (wid : Nat)
  | fireTimer (i : Nat)
  | enqueueBulk (items : List QItem)
deriving DecidableEq, Repr

/-- Fuel amply covering any synchronous queue cascade from this state. -/
def stepFuel (s : AState) : Nat := s.queue.items.length + 2

def stepA (s : AState) (e : AEvent) : AState :=
  match e with
  | .launched wid => onLaunchedA (stepFuel s) s wid
  | .connected wid => onConnectedA (stepFuel s) s wid
  | .codeLoaded wid => onCodeLoadedA s wid
  | .shutdownAck => onShutdownAckA (stepFuel s) s
  | .exited wid => onExitA (stepFuel s) s wid
  | .fireTimer i =>
    match s.timers.get? i with
    | some t =>
      let s1 := { s with timers := s.timers.eraseIdx i }
      match t with
      | .killTimer item => fireKillTimerA (stepFuel s1) s1 item
      | .groupAdvance => execQueueA (stepFuel s1) s1 false none
    | none => s
  | .enqueueBulk items =>
    queueBulkA (s.queue.items.length + items.length + 2) s items none

def runA (s : AState) (evs : List AEvent) : AState := evs.foldl stepA s

/-! ### C1 -/

/-- A cluster connect queue item. -/
def c1Item (cid wid : Nat) : QItem := ⟨wid, .cluster, .connectCluster cid⟩

/-- Launch scenario for C1: 4 clusters, `maxConcurrency = 2` (groups
`{0,1}` and `{2,3}`), 4 freshly forked workers 1-4, empty queue.  Mirrors
the state right after `startCluster` forked the workers and populated
`launchingWorkers`, before `bulkItems` enqueues the connect items. -/
def c1s0 : AState where
  clusters := []
  services := []
  launchingWorkers := [(1, .lcluster ⟨1, 0, 0, 2⟩), (2, .lcluster ⟨2, 1, 3, 5⟩),
    (3, .lcluster ⟨3, 2, 6, 8⟩), (4, .lcluster ⟨4, 3, 9, 11⟩)]
  launchingManager := []
  softKills := []
  connectedClusterGroups := []
  clustersSeqFailedRestarts := []
  servicesSeqFailedRestarts := []
  queue := ⟨[], none⟩
  maxConcurrency := 2
  maxRestarts := 5
  clusterCount := 4
  startServicesTogether := false
  servicesToCreate := none
  resharding := false
  fetches := []
  liveWorkers := [1, 2, 3, 4]
  nextWorkerID := 5
  sent := []
  killed := []
  timerForcedKills := []
  fnInvoked := []
  cbInvoked := []
  timers := []
  events := []
  crashed := false

/-- The launch sequence: enqueue the four connect items, each worker
reports `launched`, then cluster 0's worker reports `connected`, then the
single scheduled group-advance timer fires. -/
def c1Events : List AEvent :=
  [.enqueueBulk [c1Item 0 1, c1Item 1 2, c1Item 2 3, c1Item 3 4],
   .launched 1, .launched 2, .launched 3, .launched 4,
   .connected 1, .fireTimer 0]

/-- **C1 (code bug).** In the modelled launch of 4 clusters with
`maxConcurrency = 2`, after *only cluster 0* has been processed as
connected (exactly one `clusterReady`), the `connect` message for
cluster 2 — the first member of concurrency group 1 — has already been
sent, although cluster 1 of group 0 never connected.  The root cause:
`groupConnectedMax` is computed as
`Object.entries(clusterToGroupMap).filter(...).length`, but
`clusterToGroupMap` is a `Map`, so `Object.entries` yields `[]`
(`objectEntriesOfMap`), `groupConnectedMax` is always 0, and
`groupConnectedTotal >= groupConnectedMax` passes after every single
`connected` — the queue advances without waiting for the group. -/
theorem concurrency_group_gating_broken :
    (3, SentMsg.qmsg (QMsg.connectCluster 2)) ∈ (runA c1s0 c1Events).sent ∧
    jsGet (runA c1s0 c1Events).clusters 1 = none ∧
    (runA c1s0 c1Events).events.count "clusterReady" = 1 ∧
    jsGet (chunkConcurrencyGroups 4 2) 2 = some 1 ∧
    jsGet (chunkConcurrencyGroups 4 2) 1 = some 0 ∧
    objectEntriesOfMap (chunkConcurrencyGroups 4 2) = [] := by
  decide

end Aura

namespace Aura

/-- Fields the queue "execute" subscriber never touches. -/
def queueOnly (s t : AState) : Prop :=
  t.liveWorkers = s.liveWorkers ∧ t.killed = s.killed ∧
  t.timerForcedKills = s.timerForcedKills ∧ t.fnInvoked = s.fnInvoked ∧
  t.softKills = s.softKills ∧ t.cbInvoked = s.cbInvoked ∧
  t.clusters = s.clusters ∧ t.services = s.services ∧
  t.launchingWorkers = s.launchingWorkers ∧ t.crashed = s.crashed

theorem queueOnly_refl (s : AState) : queueOnly s s :=
  ⟨rfl, rfl, rfl, rfl, rfl, rfl, rfl, rfl, rfl, rfl⟩

theorem queueOnly_trans {s t u : AState} (h1 : queueOnly s t) (h2 : queueOnly t u) :
    queueOnly s u := by
  obtain ⟨a1, a2, a3, a4, a5, a6, a7, a8, a9, a10⟩ := h1
  obtain ⟨b1, b2, b3, b4, b5, b6, b7, b8, b9, b10⟩ := h2
  exact ⟨b1.trans a1, b2.trans a2, b3.trans a3, b4.trans a4, b5.trans a5,
    b6.trans a6, b7.trans a7, b8.trans a8, b9.trans a9, b10.trans a10⟩

theorem concurrencyCore_cases (exec : AState → AState) (s : AState) (item : QItem) :
    concurrencyCore exec s item = s ∨ concurrencyCore exec s item = exec s := by
  unfold concurrencyCore
  rcases s.queue.items.get? 1 with _ | next
  · exact Or.inl rfl
  · simp only []
    split
    · split
      · split
        · split
          · exact Or.inr rfl
          · exact Or.inl rfl
        · exact Or.inl rfl
      · exact Or.inl rfl
    · split
      · split
        · split
          · exact Or.inr rfl
          · exact Or.inl rfl
        · exact Or.inl rfl
      · exact Or.inl rfl

theorem execQueueA_queueOnly : ∀ (fuel : Nat) (s : AState) (first : Bool)
    (o : Option String), queueOnly s (execQueueA fuel s first o) := by
  intro fuel
  induction fuel with
  | zero => intro s first o; exact queueOnly_refl s
  | succ fuel ih =>
    intro s first o
    rw [execQueueA]
    by_cases hg : Queue.gateBlocks s.queue o
    · simp only [hg, if_true]
      exact queueOnly_refl s
    · simp only [hg, Bool.false_eq_true, if_false]
      set items' := if first then s.queue.items else s.queue.items.drop 1 with hitems
      rcases hh : items'.head? with _ | item
      · exact queueOnly_refl _
      · simp only []
        by_cases hl : item.workerID ∈ s.liveWorkers
        · simp only [hl, if_true]
          rcases hm : item.msg with c | sn | _
          · -- connectCluster: launchingManager branch
            rcases hlm : jsGet s.launchingManager item.workerID with _ | lr
            · exact queueOnly_refl _
            · rcases concurrencyCore_cases
                (fun st => execQueueA fuel st false none) _ item with hc | hc
              · rw [hc]
                exact queueOnly_refl _
              · rw [hc]
                exact ih _ false none
          · rcases hlm : jsGet s.launchingManager item.workerID with _ | lr
            · exact queueOnly_refl _
            · rcases concurrencyCore_cases
                (fun st => execQueueA fuel st false none) _ item with hc | hc
              · rw [hc]
                exact queueOnly_refl _
              · rw [hc]
                exact ih _ false none
          · exact queueOnly_refl _
        · simp only [hl, if_false]
          exact queueOnly_refl _

end Aura

namespace Aura

theorem execQueueA_advance_inert (fuel : Nat) (s : AState)
    (hov : s.queue.override = none)
    (htail : ∀ q ∈ s.queue.items.drop 1, q.workerID ∉ s.liveWorkers) :
    execQueueA (fuel + 1) s false none
      = { s with queue := { s.queue with items := s.queue.items.drop 1 } } := by
  rw [execQueueA]
  have hg : Queue.gateBlocks s.queue none = false := by
    simp [Queue.gateBlocks, hov]
  simp only [hg, Bool.false_eq_true, if_false, Bool.false_eq_true]
  rcases hd : s.queue.items.drop 1 with _ | ⟨q1, rest⟩
  · simp [hd]
  · have hq1 : q1.workerID ∉ s.liveWorkers :=
      htail q1 (by rw [hd]; exact List.mem_cons_self _ _)
    simp [hd, hq1]

end Aura

namespace Aura

theorem invokeCb_fields (s : AState) (cb : Option Nat) :
    (invokeCb s cb).fnInvoked = s.fnInvoked ∧
    (invokeCb s cb).softKills = s.softKills ∧
    (invokeCb s cb).killed = s.killed ∧
    (invokeCb s cb).liveWorkers = s.liveWorkers ∧
    (invokeCb s cb).timerForcedKills = s.timerForcedKills ∧
    (∀ c, cb = some c → c ∈ (invokeCb s cb).cbInvoked) := by
  cases cb <;> simp [invokeCb]

/-- What the cluster SoftKillEntry continuation does to the observables. -/
theorem applySKA_cluster_facts (fuel : Nat) (s : AState) (wid : Nat)
    (rec : ClusterRecord) (cb : Option Nat) (failed : Bool) :
    (applySKA fuel s wid (.skCluster rec cb) failed).fnInvoked
        = s.fnInvoked ++ [(wid, failed)] ∧
    (applySKA fuel s wid (.skCluster rec cb) failed).softKills
        = jsDelete s.softKills wid ∧
    (failed = true →
      (applySKA fuel s wid (.skCluster rec cb) failed).killed = s.killed ∧
      (applySKA fuel s wid (.skCluster rec cb) failed).liveWorkers = s.liveWorkers) ∧
    (failed = false → wid ∈ s.liveWorkers →
      (applySKA fuel s wid (.skCluster rec cb) failed).killed = s.killed ++ [wid] ∧
      (applySKA fuel s wid (.skCluster rec cb) failed).liveWorkers
        = s.liveWorkers.erase wid) ∧
    (applySKA fuel s wid (.skCluster rec cb) failed).timerForcedKills
        = s.timerForcedKills ∧
    (∀ c, cb = some c → c ∈ (applySKA fuel s wid (.skCluster rec cb) failed).cbInvoked) := by
  cases failed
  · -- cooperative path: emits, kills
    simp only [applySKA, Bool.false_eq_true, if_false]
    by_cases hw : wid ∈ s.liveWorkers
    · simp only [killA, emitA, hw, if_true]
      set s3 : AState := { s with
        fnInvoked := s.fnInvoked ++ [(wid, false)],
        clusters := jsDelete s.clusters rec.clusterID,
        launchingWorkers := jsDelete s.launchingWorkers wid,
        softKills := jsDelete s.softKills wid,
        events := s.events ++ ["clusterShutdown"],
        liveWorkers := s.liveWorkers.erase wid,
        killed := s.killed ++ [wid] } with hs3
      obtain ⟨hl, hk, ht, hf, hs, hc, -, -, -, -⟩ :=
        execQueueA_queueOnly fuel s3 false (some "shutdownWorker")
      obtain ⟨i1, i2, i3, i4, i5, i6⟩ :=
        invokeCb_fields (execQueueA fuel s3 false (some "shutdownWorker")) cb
      refine ⟨?_, ?_, ?_, ?_, ?_, ?_⟩
      · rw [i1, hf]
      · rw [i2, hs]
      · intro h; exact absurd h (by simp)
      · intro _ _
        exact ⟨by rw [i3, hk], by rw [i4, hl]⟩
      · rw [i5, ht]
      · exact i6
    · simp only [killA, emitA, hw, if_false]
      set s3 : AState := { s with
        fnInvoked := s.fnInvoked ++ [(wid, false)],
        clusters := jsDelete s.clusters rec.clusterID,
        launchingWorkers := jsDelete s.launchingWorkers wid,
        softKills := jsDelete s.softKills wid,
        events := s.events ++ ["clusterShutdown"] } with hs3
      obtain ⟨hl, hk, ht, hf, hs, hc, -, -, -, -⟩ :=
        execQueueA_queueOnly fuel s3 false (some "shutdownWorker")
      obtain ⟨i1, i2, i3, i4, i5, i6⟩ :=
        invokeCb_fields (execQueueA fuel s3 false (some "shutdownWorker")) cb
      refine ⟨by rw [i1, hf], by rw [i2, hs], ?_, ?_, by rw [i5, ht], i6⟩
      · intro h; exact absurd h (by simp)
      · intro _ hmem; exact hmem.elim
  · -- failed path: no kill
    simp only [applySKA, if_true]
    set s3 : AState := { s with
      fnInvoked := s.fnInvoked ++ [(wid, true)],
      clusters := jsDelete s.clusters rec.clusterID,
      launchingWorkers := jsDelete s.launchingWorkers wid,
      softKills := jsDelete s.softKills wid } with hs3
    obtain ⟨hl, hk, ht, hf, hs, hc, -, -, -, -⟩ :=
      execQueueA_queueOnly fuel s3 false (some "shutdownWorker")
    obtain ⟨i1, i2, i3, i4, i5, i6⟩ :=
      invokeCb_fields (execQueueA fuel s3 false (some "shutdownWorker")) cb
    refine ⟨by rw [i1, hf], by rw [i2, hs], ?_, ?_, by rw [i5, ht], i6⟩
    · intro _
      exact ⟨by rw [i3, hk], by rw [i4, hl]⟩
    · intro h; exact absurd h (by simp)

end Aura

namespace Aura

/-- What the service SoftKillEntry continuation does: it kills the worker
unconditionally (it ignores the `failed` argument). -/
theorem applySKA_service_facts (fuel : Nat) (s : AState) (wid : Nat)
    (rec : ServiceRecord) (cb : Option Nat) (failed : Bool) :
    (applySKA fuel s wid (.skService rec cb) failed).fnInvoked
        = s.fnInvoked ++ [(wid, failed)] ∧
    (applySKA fuel s wid (.skService rec cb) failed).softKills
        = jsDelete s.softKills wid ∧
    (wid ∈ s.liveWorkers →
      (applySKA fuel s wid (.skService rec cb) failed).killed = s.killed ++ [wid] ∧
      (applySKA fuel s wid (.skService rec cb) failed).liveWorkers
        = s.liveWorkers.erase wid) ∧
    (wid ∉ s.liveWorkers →
      (applySKA fuel s wid (.skService rec cb) failed).killed = s.killed ∧
      (applySKA fuel s wid (.skService rec cb) failed).liveWorkers = s.liveWorkers) ∧
    (applySKA fuel s wid (.skService rec cb) failed).timerForcedKills
        = s.timerForcedKills ∧
    (∀ c, cb = some c → c ∈ (applySKA fuel s wid (.skService rec cb) failed).cbInvoked) := by
  simp only [applySKA]
  by_cases hw : wid ∈ s.liveWorkers
  · simp only [killA, emitA, hw, if_true]
    set s3 : AState := { s with
      fnInvoked := s.fnInvoked ++ [(wid, failed)],
      services := jsDelete s.services rec.serviceName,
      launchingWorkers := jsDelete s.launchingWorkers wid,
      softKills := jsDelete s.softKills wid,
      liveWorkers := s.liveWorkers.erase wid,
      killed := s.killed ++ [wid],
      events := s.events ++ ["serviceShutdown"] } with hs3
    obtain ⟨hl, hk, ht, hf, hs, hc, -, -, -, -⟩ :=
      execQueueA_queueOnly fuel s3 false (some "shutdownWorker")
    obtain ⟨i1, i2, i3, i4, i5, i6⟩ :=
      invokeCb_fields (execQueueA fuel s3 false (some "shutdownWorker")) cb
    refine ⟨by rw [i1, hf], by rw [i2, hs], ?_, ?_, by rw [i5, ht], i6⟩
    · intro _
      exact ⟨by rw [i3, hk], by rw [i4, hl]⟩
    · intro hmem; exact absurd trivial hmem
  · simp only [killA, emitA, hw, if_false]
    set s3 : AState := { s with
      fnInvoked := s.fnInvoked ++ [(wid, failed)],
      services := jsDelete s.services rec.serviceName,
      launchingWorkers := jsDelete s.launchingWorkers wid,
      softKills := jsDelete s.softKills wid,
      events := s.events ++ ["serviceShutdown"] } with hs3
    obtain ⟨hl, hk, ht, hf, hs, hc, -, -, -, -⟩ :=
      execQueueA_queueOnly fuel s3 false (some "shutdownWorker")
    obtain ⟨i1, i2, i3, i4, i5, i6⟩ :=
      invokeCb_fields (execQueueA fuel s3 false (some "shutdownWorker")) cb
    refine ⟨by rw [i1, hf], by rw [i2, hs], ?_, ?_, by rw [i5, ht], i6⟩
    · intro hmem; exact hmem.elim
    · intro _
      exact ⟨by rw [i3, hk], by rw [i4, hl]⟩

end Aura

namespace Aura

/-- **C3.** For a worker under soft kill whose `shutdown` command heads the
queue: processing the cooperative shutdown acknowledgment first terminates the
worker exactly once via the soft path and removes it from the live set, so a
kill timer firing afterwards finds the worker gone and forces no kill; if the
timer fires with no acknowledgment, the worker is force-terminated exactly
once, the SoftKillEntry is consumed, its fn runs flagged as the failed
cooperative path, and the registered callback still fires. Proved for a
cluster scenario and a service scenario simultaneously. -/
theorem softkill_race (sc ss : AState) (widc wids : Nat) (tyc tys : WType)
    (recc : ClusterRecord) (recs : ServiceRecord) (cbc cbs : Option Nat)
    (restc rests : List QItem)
    (hqc : sc.queue.items = ⟨widc, tyc, .shutdown⟩ :: restc)
    (hskc : jsGet sc.softKills widc = some (.skCluster recc cbc))
    (hlivec : widc ∈ sc.liveWorkers)
    (hnodc : sc.liveWorkers.Nodup)
    (htfkc : sc.timerForcedKills = [])
    (hkc : sc.killed = [])
    (hfnc : sc.fnInvoked = [])
    (hnskc : (sc.softKills.map Prod.fst).Nodup)
    (hqs : ss.queue.items = ⟨wids, tys, .shutdown⟩ :: rests)
    (hsks : jsGet ss.softKills wids = some (.skService recs cbs))
    (hlives : wids ∈ ss.liveWorkers)
    (hnods : ss.liveWorkers.Nodup)
    (htfks : ss.timerForcedKills = [])
    (hks : ss.killed = [])
    (hfns : ss.fnInvoked = [])
    (hnsks : (ss.softKills.map Prod.fst).Nodup) :
    (∀ fuel fuel2 : Nat,
      (fireKillTimerA fuel2 (onShutdownAckA fuel sc) ⟨widc, tyc, .shutdown⟩).timerForcedKills
        = [] ∧
      (onShutdownAckA fuel sc).killed = [widc] ∧
      (widc, false) ∈ (onShutdownAckA fuel sc).fnInvoked) ∧
    (∀ fuel : Nat,
      (fireKillTimerA fuel sc ⟨widc, tyc, .shutdown⟩).timerForcedKills = [widc] ∧
      (fireKillTimerA fuel sc ⟨widc, tyc, .shutdown⟩).killed = [widc] ∧
      (fireKillTimerA fuel sc ⟨widc, tyc, .shutdown⟩).fnInvoked = [(widc, true)] ∧
      jsGet (fireKillTimerA fuel sc ⟨widc, tyc, .shutdown⟩).softKills widc = none ∧
      (∀ c, cbc = some c → c ∈ (fireKillTimerA fuel sc ⟨widc, tyc, .shutdown⟩).cbInvoked)) ∧
    (∀ fuel fuel2 : Nat,
      (fireKillTimerA fuel2 (onShutdownAckA fuel ss) ⟨wids, tys, .shutdown⟩).timerForcedKills
        = [] ∧
      (onShutdownAckA fuel ss).killed = [wids] ∧
      (wids, false) ∈ (onShutdownAckA fuel ss).fnInvoked) ∧
    (∀ fuel : Nat,
      (fireKillTimerA fuel ss ⟨wids, tys, .shutdown⟩).timerForcedKills = [wids] ∧
      (fireKillTimerA fuel ss ⟨wids, tys, .shutdown⟩).killed = [wids] ∧
      (fireKillTimerA fuel ss ⟨wids, tys, .shutdown⟩).fnInvoked = [(wids, true)] ∧
      jsGet (fireKillTimerA fuel ss ⟨wids, tys, .shutdown⟩).softKills wids = none ∧
      (∀ c, cbs = some c → c ∈ (fireKillTimerA fuel ss ⟨wids, tys, .shutdown⟩).cbInvoked)) := by
  refine ⟨?_, ?_, ?_, ?_⟩
  · -- cluster: ack first, then late timer
    intro fuel fuel2
    have hack : onShutdownAckA fuel sc = applySKA fuel sc widc (.skCluster recc cbc) false := by
      simp [onShutdownAckA, hqc, hskc]
    obtain ⟨f1, f2, -, f4, f5, -⟩ := applySKA_cluster_facts fuel sc widc recc cbc false
    obtain ⟨g1, g2⟩ := f4 rfl hlivec
    rw [hack]
    refine ⟨?_, by rw [g1, hkc]; rfl, by rw [f1, hfnc]; exact List.mem_cons_self _ _⟩
    -- the timer fires after the cooperative ack: no forced kill
    set sAck := applySKA fuel sc widc (.skCluster recc cbc) false with hsAck
    have hnotmem : widc ∉ sAck.liveWorkers := by
      rw [g2]
      intro hmem
      exact absurd ((hnodc.mem_erase_iff).mp hmem).1 (by simp)
    unfold fireKillTimerA
    rcases hh : sAck.queue.items.head? with _ | q0
    · rw [htfkc] at f5; exact f5
    · simp only []
      by_cases hid : q0.workerID = widc
      · simp only [hid, if_true, hnotmem, if_false]
        rw [htfkc] at f5
        exact f5
      · simp only [hid, if_false]
        rw [htfkc] at f5
        exact f5
  · -- cluster: timer fires with no ack
    intro fuel
    have hstep : fireKillTimerA fuel sc ⟨widc, tyc, .shutdown⟩
        = applySKA fuel { sc with
            liveWorkers := sc.liveWorkers.erase widc,
            killed := sc.killed ++ [widc],
            timerForcedKills := sc.timerForcedKills ++ [widc] }
          widc (.skCluster recc cbc) true := by
      simp only [fireKillTimerA, hqc, List.head?_cons, if_pos rfl, killA, hlivec, if_true]
      simp [hskc]
    rw [hstep]
    obtain ⟨f1, f2, f3, -, f5, f6⟩ := applySKA_cluster_facts fuel _ widc recc cbc true
    obtain ⟨g1, -⟩ := f3 rfl
    refine ⟨by rw [f5]; simp [htfkc], by rw [g1]; simp [hkc], by rw [f1]; simp [hfnc],
      ?_, f6⟩
    rw [f2]
    exact jsGet_delete_self _ _ (by simpa using hnskc)
  · -- service: ack first, then late timer
    intro fuel fuel2
    have hack : onShutdownAckA fuel ss = applySKA fuel ss wids (.skService recs cbs) false := by
      simp [onShutdownAckA, hqs, hsks]
    obtain ⟨f1, f2, f3, -, f5, -⟩ := applySKA_service_facts fuel ss wids recs cbs false
    obtain ⟨g1, g2⟩ := f3 hlives
    rw [hack]
    refine ⟨?_, by rw [g1, hks]; rfl, by rw [f1, hfns]; exact List.mem_cons_self _ _⟩
    set sAck := applySKA fuel ss wids (.skService recs cbs) false with hsAck
    have hnotmem : wids ∉ sAck.liveWorkers := by
      rw [g2]
      intro hmem
      exact absurd ((hnods.mem_erase_iff).mp hmem).1 (by simp)
    unfold fireKillTimerA
    rcases hh : sAck.queue.items.head? with _ | q0
    · rw [htfks] at f5; exact f5
    · simp only []
      by_cases hid : q0.workerID = wids
      · simp only [hid, if_true, hnotmem, if_false]
        rw [htfks] at f5
        exact f5
      · simp only [hid, if_false]
        rw [htfks] at f5
        exact f5
  · -- service: timer fires with no ack; the continuation kills again but the
    -- worker is already dead, so the termination still happens exactly once
    intro fuel
    have hstep : fireKillTimerA fuel ss ⟨wids, tys, .shutdown⟩
        = applySKA fuel { ss with
            liveWorkers := ss.liveWorkers.erase wids,
            killed := ss.killed ++ [wids],
            timerForcedKills := ss.timerForcedKills ++ [wids] }
          wids (.skService recs cbs) true := by
      simp only [fireKillTimerA, hqs, List.head?_cons, if_pos rfl, killA, hlives, if_true]
      simp [hsks]
    rw [hstep]
    obtain ⟨f1, f2, -, f4, f5, f6⟩ := applySKA_service_facts fuel _ wids recs cbs true
    have hdead : wids ∉ ({ ss with
        liveWorkers := ss.liveWorkers.erase wids,
        killed := ss.killed ++ [wids],
        timerForcedKills := ss.timerForcedKills ++ [wids] } : AState).liveWorkers := by
      intro hmem
      exact absurd ((hnods.mem_erase_iff).mp hmem).1 (by simp)
    obtain ⟨g1, -⟩ := f4 hdead
    refine ⟨by rw [f5]; simp [htfks], by rw [g1]; simp [hks], by rw [f1]; simp [hfns],
      ?_, f6⟩
    rw [f2]
    exact jsGet_delete_self _ _ (by simpa using hnsks)

end Aura

namespace Aura

theorem onExit_maxReached_cluster (fuel : Nat) (s : AState) (wid : Nat)
    (rec : ClusterRecord) (q0 : QItem) (qrest : List QItem)
    (hfind : jsFind s.clusters (fun r => r.workerID = wid) = some rec)
    (hsk : jsGet s.softKills wid = none)
    (hmr : s.maxRestarts ≠ -1)
    (hcnt : ((jsGet s.clustersSeqFailedRestarts rec.clusterID).getD 0 : Int) ≥ s.maxRestarts)
    (hq : s.queue.items = q0 :: qrest)
    (hov : s.queue.override = none)
    (htail : ∀ q ∈ qrest, q.workerID ∉ s.liveWorkers) :
    (onExitA (fuel + 1) s wid).clusters = s.clusters ∧
    (onExitA (fuel + 1) s wid).clustersSeqFailedRestarts
      = jsDelete s.clustersSeqFailedRestarts rec.clusterID ∧
    (onExitA (fuel + 1) s wid).launchingWorkers = s.launchingWorkers ∧
    (onExitA (fuel + 1) s wid).nextWorkerID = s.nextWorkerID ∧
    (onExitA (fuel + 1) s wid).queue.items
      = (if q0.workerID = wid then qrest else s.queue.items) ∧
    (onExitA (fuel + 1) s wid).killed = s.killed := by
  have hred : onExitA (fuel + 1) s wid
      = maxReachedClusterA (fuel + 1) { s with liveWorkers := s.liveWorkers.erase wid } wid rec := by
    simp only [onExitA, hfind, hsk, hmr, if_true]
    simp only [hcnt, if_true]
    rw [if_pos hmr]
  rw [hred]
  unfold maxReachedClusterA
  set s1 : AState := { s with
    liveWorkers := s.liveWorkers.erase wid,
    clustersSeqFailedRestarts := jsDelete s.clustersSeqFailedRestarts rec.clusterID } with hs1
  simp only [hq, List.head?_cons]
  by_cases hid : q0.workerID = wid
  · simp only [hid, if_true]
    have hinert := execQueueA_advance_inert fuel s1 (by simpa using hov) ?_
    · rw [hinert]
      simp [hq, hid]
    · intro q hqmem hmem
      have : q ∈ qrest := by
        have : s1.queue.items.drop 1 = qrest := by simp [hq]
        rw [this] at hqmem
        exact hqmem
      exact htail q this (List.mem_of_mem_erase hmem)
  · simp only [hid, if_false]
    simp [hq, hid]

end Aura

namespace Aura

theorem onExit_restart_cluster (fuel : Nat) (s : AState) (wid : Nat)
    (rec : ClusterRecord) (q0 : QItem) (qrest : List QItem)
    (hfind : jsFind s.clusters (fun r => r.workerID = wid) = some rec)
    (hsk : jsGet s.softKills wid = none)
    (hmr : s.maxRestarts ≠ -1)
    (hcnt : ((jsGet s.clustersSeqFailedRestarts rec.clusterID).getD 0 : Int) < s.maxRestarts)
    (hq : s.queue.items = q0 :: qrest)
    (hov : s.queue.override = none) :
    jsGet (onExitA fuel s wid).launchingWorkers s.nextWorkerID
      = some (.lcluster { rec with workerID := s.nextWorkerID }) ∧
    jsGet (onExitA fuel s wid).clusters rec.clusterID
      = some { rec with workerID := s.nextWorkerID } ∧
    jsGet (onExitA fuel s wid).clustersSeqFailedRestarts rec.clusterID
      = some ((jsGet s.clustersSeqFailedRestarts rec.clusterID).getD 0 + 1) ∧
    (onExitA fuel s wid).nextWorkerID = s.nextWorkerID + 1 ∧
    (onExitA fuel s wid).queue.items
      = s.queue.items ++ [⟨s.nextWorkerID, .cluster, .connectCluster rec.clusterID⟩] := by
  have hnge : ¬ ((jsGet s.clustersSeqFailedRestarts rec.clusterID).getD 0 : Int) ≥ s.maxRestarts := by
    omega
  have hred : onExitA fuel s wid
      = doRestartA fuel { s with
          liveWorkers := s.liveWorkers.erase wid,
          clustersSeqFailedRestarts := jsSet s.clustersSeqFailedRestarts rec.clusterID
            ((jsGet s.clustersSeqFailedRestarts rec.clusterID).getD 0 + 1) } wid := by
    simp only [onExitA, hfind, hsk, hnge, if_false]
    rw [if_pos hmr]
  rw [hred]
  set sC : AState := { s with
    liveWorkers := s.liveWorkers.erase wid,
    clustersSeqFailedRestarts := jsSet s.clustersSeqFailedRestarts rec.clusterID
      ((jsGet s.clustersSeqFailedRestarts rec.clusterID).getD 0 + 1) } with hsC
  have hfindC : jsFind sC.clusters (fun r => r.workerID = wid) = some rec := hfind
  unfold doRestartA restartWorkerA
  simp only [hfindC]
  unfold queueItemA
  have hgate : Queue.gateBlocks sC.queue none = false := by
    simp [Queue.gateBlocks, hov]
  simp only [hgate, Bool.false_eq_true, if_false]
  have hlen : ¬ (sC.queue.items ++
      [(⟨sC.nextWorkerID, .cluster, .connectCluster rec.clusterID⟩ : QItem)]).length = 1 := by
    simp only [List.length_append]
    simp [hq]
  simp only [hlen, if_false]
  refine ⟨?_, ?_, ?_, ?_, ?_⟩ <;>
    first
      | exact jsGet_set_self _ _ _
      | rfl
      | trivial

end Aura

namespace Aura

theorem onExit_maxReached_service (fuel : Nat) (s : AState) (wid : Nat)
    (rec : ServiceRecord) (q0 : QItem) (qrest : List QItem)
    (hfindc : jsFind s.clusters (fun r => r.workerID = wid) = none)
    (hfind : jsFind s.services (fun r => r.workerID = wid) = some rec)
    (hsk : jsGet s.softKills wid = none)
    (hmr : s.maxRestarts ≠ -1)
    (hcnt : ((jsGet s.servicesSeqFailedRestarts rec.serviceName).getD 0 : Int) ≥ s.maxRestarts)
    (hq : s.queue.items = q0 :: qrest)
    (hov : s.queue.override = none)
    (htail : ∀ q ∈ qrest, q.workerID ∉ s.liveWorkers) :
    (onExitA (fuel + 1) s wid).services = s.services ∧
    (onExitA (fuel + 1) s wid).servicesSeqFailedRestarts
      = jsDelete s.servicesSeqFailedRestarts rec.serviceName ∧
    (onExitA (fuel + 1) s wid).launchingWorkers = s.launchingWorkers ∧
    (onExitA (fuel + 1) s wid).nextWorkerID = s.nextWorkerID ∧
    (onExitA (fuel + 1) s wid).queue.items
      = (if q0.workerID = wid then qrest else s.queue.items) ∧
    (onExitA (fuel + 1) s wid).killed = s.killed := by
  have hred : onExitA (fuel + 1) s wid
      = maxReachedServiceA (fuel + 1) { s with liveWorkers := s.liveWorkers.erase wid } wid rec := by
    simp only [onExitA, hfindc, hfind, hsk, hmr, if_true]
    simp only [hcnt, if_true]
    rw [if_pos hmr]
  rw [hred]
  unfold maxReachedServiceA
  set s1 : AState := { s with
    liveWorkers := s.liveWorkers.erase wid,
    servicesSeqFailedRestarts := jsDelete s.servicesSeqFailedRestarts rec.serviceName } with hs1
  simp only [hq, List.head?_cons]
  by_cases hid : q0.workerID = wid
  · simp only [hid, if_true]
    have hinert := execQueueA_advance_inert fuel s1 (by simpa using hov) ?_
    · rw [hinert]
      simp [hq, hid]
    · intro q hqmem hmem
      have : q ∈ qrest := by
        have : s1.queue.items.drop 1 = qrest := by simp [hq]
        rw [this] at hqmem
        exact hqmem
      exact htail q this (List.mem_of_mem_erase hmem)
  · simp only [hid, if_false]
    simp [hq, hid]

theorem onExit_restart_service (fuel : Nat) (s : AState) (wid : Nat)
    (rec : ServiceRecord) (q0 : QItem) (qrest : List QItem)
    (hfindc : jsFind s.clusters (fun r => r.workerID = wid) = none)
    (hfind : jsFind s.services (fun r => r.workerID = wid) = some rec)
    (hsk : jsGet s.softKills wid = none)
    (hmr : s.maxRestarts ≠ -1)
    (hcnt : ((jsGet s.servicesSeqFailedRestarts rec.serviceName).getD 0 : Int) < s.maxRestarts)
    (hq : s.queue.items = q0 :: qrest)
    (hov : s.queue.override = none) :
    jsGet (onExitA fuel s wid).launchingWorkers s.nextWorkerID
      = some (.lservice { rec with workerID := s.nextWorkerID }) ∧
    jsGet (onExitA fuel s wid).services rec.serviceName
      = some { rec with workerID := s.nextWorkerID } ∧
    jsGet (onExitA fuel s wid).servicesSeqFailedRestarts rec.serviceName
      = some ((jsGet s.servicesSeqFailedRestarts rec.serviceName).getD 0 + 1) ∧
    (onExitA fuel s wid).nextWorkerID = s.nextWorkerID + 1 ∧
    (onExitA fuel s wid).queue.items
      = s.queue.items ++ [⟨s.nextWorkerID, .service, .connectService rec.serviceName⟩] := by
  have hnge : ¬ ((jsGet s.servicesSeqFailedRestarts rec.serviceName).getD 0 : Int)
      ≥ s.maxRestarts := by
    omega
  have hred : onExitA fuel s wid
      = doRestartA fuel { s with
          liveWorkers := s.liveWorkers.erase wid,
          servicesSeqFailedRestarts := jsSet s.servicesSeqFailedRestarts rec.serviceName
            ((jsGet s.servicesSeqFailedRestarts rec.serviceName).getD 0 + 1) } wid := by
    simp only [onExitA, hfindc, hfind, hsk, hnge, if_false]
    rw [if_pos hmr]
  rw [hred]
  set sC : AState := { s with
    liveWorkers := s.liveWorkers.erase wid,
    servicesSeqFailedRestarts := jsSet s.servicesSeqFailedRestarts rec.serviceName
      ((jsGet s.servicesSeqFailedRestarts rec.serviceName).getD 0 + 1) } with hsC
  have hfindcC : jsFind sC.clusters (fun r => r.workerID = wid) = none := hfindc
  have hfindC : jsFind sC.services (fun r => r.workerID = wid) = some rec := hfind
  unfold doRestartA restartWorkerA
  simp only [hfindcC, hfindC]
  unfold queueItemA
  have hgate : Queue.gateBlocks sC.queue none = false := by
    simp [Queue.gateBlocks, hov]
  simp only [hgate, Bool.false_eq_true, if_false]
  have hlen : ¬ (sC.queue.items ++
      [(⟨sC.nextWorkerID, .service, .connectService rec.serviceName⟩ : QItem)]).length = 1 := by
    simp only [List.length_append]
    simp [hq]
  simp only [hlen, if_false]
  refine ⟨?_, ?_, ?_, ?_, ?_⟩ <;>
    first
      | exact jsGet_set_self _ _ _
      | rfl
      | trivial

theorem onCodeLoaded_cluster (s : AState) (wid : Nat) (rec : ClusterRecord)
    (hfind : jsFind s.clusters (fun r => r.workerID = wid) = some rec)
    (hnod : (s.clustersSeqFailedRestarts.map Prod.fst).Nodup) :
    jsGet (onCodeLoadedA s wid).clustersSeqFailedRestarts rec.clusterID = none ∧
    (onCodeLoadedA s wid).clusters = s.clusters := by
  simp only [onCodeLoadedA, hfind]
  exact ⟨jsGet_delete_self _ _ hnod, trivial⟩

theorem onCodeLoaded_service (s : AState) (wid : Nat) (rec : ServiceRecord)
    (hfindc : jsFind s.clusters (fun r => r.workerID = wid) = none)
    (hfind : jsFind s.services (fun r => r.workerID = wid) = some rec)
    (hnod : (s.servicesSeqFailedRestarts.map Prod.fst).Nodup) :
    jsGet (onCodeLoadedA s wid).servicesSeqFailedRestarts rec.serviceName = none ∧
    (onCodeLoadedA s wid).services = s.services := by
  simp only [onCodeLoadedA, hfindc, hfind]
  exact ⟨jsGet_delete_self _ _ hnod, trivial⟩

end Aura

namespace Aura

/-- **C4 (amended).** On an unplanned exit of a cluster or service worker
below the maxRestarts threshold, the sequential-failure counter increments by
exactly one, a replacement worker is forked (launching entry created, registry
re-pointed at the replacement, connect item queued); the next `codeLoaded`
report clears the counter. Once the counter has reached maxRestarts, the next
unplanned exit spawns no replacement and clears the counter, but the identity
REMAINS in the registry (contrary to the claim's "dropped from the registry"),
and the queue advances when the dead worker held its head. -/
theorem restart_backoff (fuel : Nat) (s sv : AState) (wid wids : Nat)
    (rec : ClusterRecord) (recs : ServiceRecord) (q0 q0s : QItem)
    (qrest qrests : List QItem)
    (hfind : jsFind s.clusters (fun r => r.workerID = wid) = some rec)
    (hsk : jsGet s.softKills wid = none)
    (hmr : s.maxRestarts ≠ -1)
    (hq : s.queue.items = q0 :: qrest)
    (hov : s.queue.override = none)
    (htail : ∀ q ∈ qrest, q.workerID ∉ s.liveWorkers)
    (hnodcnt : (s.clustersSeqFailedRestarts.map Prod.fst).Nodup)
    (hfindc2 : jsFind sv.clusters (fun r => r.workerID = wids) = none)
    (hfinds : jsFind sv.services (fun r => r.workerID = wids) = some recs)
    (hsks : jsGet sv.softKills wids = none)
    (hmrs : sv.maxRestarts ≠ -1)
    (hqs : sv.queue.items = q0s :: qrests)
    (hovs : sv.queue.override = none)
    (htails : ∀ q ∈ qrests, q.workerID ∉ sv.liveWorkers)
    (hnodcnts : (sv.servicesSeqFailedRestarts.map Prod.fst).Nodup) :
    (((jsGet s.clustersSeqFailedRestarts rec.clusterID).getD 0 : Int) < s.maxRestarts →
      jsGet (onExitA (fuel + 1) s wid).clustersSeqFailedRestarts rec.clusterID
        = some ((jsGet s.clustersSeqFailedRestarts rec.clusterID).getD 0 + 1) ∧
      jsGet (onExitA (fuel + 1) s wid).launchingWorkers s.nextWorkerID
        = some (.lcluster { rec with workerID := s.nextWorkerID }) ∧
      jsGet (onExitA (fuel + 1) s wid).clusters rec.clusterID
        = some { rec with workerID := s.nextWorkerID } ∧
      (onExitA (fuel + 1) s wid).queue.items
        = s.queue.items ++ [⟨s.nextWorkerID, .cluster, .connectCluster rec.clusterID⟩]) ∧
    (((jsGet s.clustersSeqFailedRestarts rec.clusterID).getD 0 : Int) ≥ s.maxRestarts →
      (onExitA (fuel + 1) s wid).launchingWorkers = s.launchingWorkers ∧
      (onExitA (fuel + 1) s wid).nextWorkerID = s.nextWorkerID ∧
      jsGet (onExitA (fuel + 1) s wid).clustersSeqFailedRestarts rec.clusterID = none ∧
      (onExitA (fuel + 1) s wid).clusters = s.clusters ∧
      (onExitA (fuel + 1) s wid).queue.items
        = (if q0.workerID = wid then qrest else s.queue.items)) ∧
    jsGet (onCodeLoadedA s wid).clustersSeqFailedRestarts rec.clusterID = none ∧
    (((jsGet sv.servicesSeqFailedRestarts recs.serviceName).getD 0 : Int) < sv.maxRestarts →
      jsGet (onExitA (fuel + 1) sv wids).servicesSeqFailedRestarts recs.serviceName
        = some ((jsGet sv.servicesSeqFailedRestarts recs.serviceName).getD 0 + 1) ∧
      jsGet (onExitA (fuel + 1) sv wids).launchingWorkers sv.nextWorkerID
        = some (.lservice { recs with workerID := sv.nextWorkerID }) ∧
      jsGet (onExitA (fuel + 1) sv wids).services recs.serviceName
        = some { recs with workerID := sv.nextWorkerID } ∧
      (onExitA (fuel + 1) sv wids).queue.items
        = sv.queue.items ++ [⟨sv.nextWorkerID, .service, .connectService recs.serviceName⟩]) ∧
    (((jsGet sv.servicesSeqFailedRestarts recs.serviceName).getD 0 : Int) ≥ sv.maxRestarts →
      (onExitA (fuel + 1) sv wids).launchingWorkers = sv.launchingWorkers ∧
      (onExitA (fuel + 1) sv wids).nextWorkerID = sv.nextWorkerID ∧
      jsGet (onExitA (fuel + 1) sv wids).servicesSeqFailedRestarts recs.serviceName = none ∧
      (onExitA (fuel + 1) sv wids).services = sv.services ∧
      (onExitA (fuel + 1) sv wids).queue.items
        = (if q0s.workerID = wids then qrests else sv.queue.items)) ∧
    jsGet (onCodeLoadedA sv wids).servicesSeqFailedRestarts recs.serviceName = none := by
  refine ⟨?_, ?_, ?_, ?_, ?_, ?_⟩
  · intro hlt
    obtain ⟨r1, r2, r3, -, r5⟩ :=
      onExit_restart_cluster (fuel + 1) s wid rec q0 qrest hfind hsk hmr hlt hq hov
    exact ⟨r3, r1, r2, r5⟩
  · intro hge
    obtain ⟨m1, m2, m3, m4, m5, -⟩ :=
      onExit_maxReached_cluster fuel s wid rec q0 qrest hfind hsk hmr hge hq hov htail
    refine ⟨m3, m4, ?_, m1, m5⟩
    rw [m2]
    exact jsGet_delete_self _ _ hnodcnt
  · exact (onCodeLoaded_cluster s wid rec hfind hnodcnt).1
  · intro hlt
    obtain ⟨r1, r2, r3, -, r5⟩ :=
      onExit_restart_service (fuel + 1) sv wids recs q0s qrests hfindc2 hfinds hsks hmrs
        hlt hqs hovs
    exact ⟨r3, r1, r2, r5⟩
  · intro hge
    obtain ⟨m1, m2, m3, m4, m5, -⟩ :=
      onExit_maxReached_service fuel sv wids recs q0s qrests hfindc2 hfinds hsks hmrs hge
        hqs hovs htails
    refine ⟨m3, m4, ?_, m1, m5⟩
    rw [m2]
    exact jsGet_delete_self _ _ hnodcnts
  · exact (onCodeLoaded_service sv wids recs hfindc2 hfinds hnodcnts).1

end Aura

namespace Aura

/-- With an empty queue the group-advance tail leaves the registries and
the launching map unchanged. -/
theorem connectedGroupAdvance_empty_queue (fuel : Nat) (s4 : AState)
    (lw : LaunchedWorker) (hq : s4.queue.items = []) :
    (connectedGroupAdvance fuel s4 lw).launchingWorkers = s4.launchingWorkers ∧
    (connectedGroupAdvance fuel s4 lw).clusters = s4.clusters := by
  have hq1 : s4.queue.items.get? 1 = none := by rw [hq]; rfl
  unfold connectedGroupAdvance
  rw [hq1]
  obtain ⟨-, -, -, -, -, -, hcl, -, hlw2, -⟩ := execQueueA_queueOnly fuel s4 false none
  simp only [emitA]
  exact ⟨hlw2, hcl⟩

/-- The `connected` handler with a pending cluster launching entry and no
soft kill: registry set + launching delete, then the group-advance tail. -/
theorem onConnectedA_decompose (fuel : Nat) (s : AState) (wid : Nat)
    (rec : ClusterRecord)
    (hlw : jsGet s.launchingWorkers wid = some (.lcluster rec))
    (hsk : jsGet s.softKills wid = none) :
    ∃ s4, onConnectedA fuel s wid = connectedGroupAdvance fuel s4 (.lcluster rec) ∧
      s4.launchingWorkers = jsDelete s.launchingWorkers wid ∧
      s4.clusters = jsSet s.clusters rec.clusterID { rec with workerID := wid } ∧
      s4.queue = s.queue := by
  cases hres : s.resharding <;>
    · simp [onConnectedA, hlw, hsk, hres, sendA, emitA]
      exact ⟨_, rfl, rfl, rfl, rfl⟩

/-- Promotion on `connected` removes the launching entry as it creates the
registry record. -/
theorem onConnected_promotes_cluster (fuel : Nat) (s : AState) (wid : Nat)
    (rec : ClusterRecord)
    (hlw : jsGet s.launchingWorkers wid = some (.lcluster rec))
    (hsk : jsGet s.softKills wid = none)
    (hq : s.queue.items = [])
    (hnodlw : (s.launchingWorkers.map Prod.fst).Nodup) :
    jsGet (onConnectedA fuel s wid).launchingWorkers wid = none ∧
    jsGet (onConnectedA fuel s wid).clusters rec.clusterID
      = some { rec with workerID := wid } := by
  obtain ⟨s4, heq, hlw4, hcl4, hq4⟩ := onConnectedA_decompose fuel s wid rec hlw hsk
  obtain ⟨hga1, hga2⟩ := connectedGroupAdvance_empty_queue fuel s4 (.lcluster rec)
    (by rw [hq4, hq])
  rw [heq, hga1, hga2, hlw4, hcl4]
  exact ⟨jsGet_delete_self _ _ hnodlw, jsGet_set_self _ _ _⟩

end Aura

namespace Aura

def workerStores (s : AState) (wid : Nat) : List Bool :=
  [(jsFind s.clusters (fun r => r.workerID = wid)).isSome,
   (jsFind s.services (fun r => r.workerID = wid)).isSome,
   (jsGet s.launchingWorkers wid).isSome]

abbrev workerInAtMostOneStore (s : AState) (wid : Nat) : Prop :=
  (workerStores s wid).count true ≤ 1

def c7s0 : AState where
  clusters := [(0, ⟨1, 0, 0, 3⟩)]
  services := []
  launchingWorkers := []
  launchingManager := []
  softKills := []
  connectedClusterGroups := []
  clustersSeqFailedRestarts := []
  servicesSeqFailedRestarts := []
  queue := ⟨[⟨1, .cluster, .connectCluster 0⟩], none⟩
  maxConcurrency := 1
  maxRestarts := 5
  clusterCount := 1
  startServicesTogether := false
  servicesToCreate := none
  resharding := false
  fetches := []
  liveWorkers := [1]
  nextWorkerID := 2
  sent := []
  killed := []
  timerForcedKills := []
  fnInvoked := []
  cbInvoked := []
  timers := []
  events := []
  crashed := false

end Aura

namespace Aura

def c3sc : AState where
  clusters := [(0, ⟨1, 0, 0, 3⟩)]
  services := []
  launchingWorkers := []
  launchingManager := []
  softKills := [(1, .skCluster ⟨1, 0, 0, 3⟩ (some 10))]
  connectedClusterGroups := []
  clustersSeqFailedRestarts := []
  servicesSeqFailedRestarts := []
  queue := ⟨[⟨1, .cluster, .shutdown⟩], none⟩
  maxConcurrency := 1
  maxRestarts := 5
  clusterCount := 1
  startServicesTogether := false
  servicesToCreate := none
  resharding := false
  fetches := []
  liveWorkers := [1]
  nextWorkerID := 2
  sent := []
  killed := []
  timerForcedKills := []
  fnInvoked := []
  cbInvoked := []
  timers := []
  events := []
  crashed := false

def c3ss : AState where
  clusters := []
  services := [("logsvc", ⟨2, "logsvc"⟩)]
  launchingWorkers := []
  launchingManager := []
  softKills := [(2, .skService ⟨2, "logsvc"⟩ (some 11))]
  connectedClusterGroups := []
  clustersSeqFailedRestarts := []
  servicesSeqFailedRestarts := []
  queue := ⟨[⟨2, .service, .shutdown⟩], none⟩
  maxConcurrency := 1
  maxRestarts := 5
  clusterCount := 0
  startServicesTogether := false
  servicesToCreate := none
  resharding := false
  fetches := []
  liveWorkers := [2]
  nextWorkerID := 3
  sent := []
  killed := []
  timerForcedKills := []
  fnInvoked := []
  cbInvoked := []
  timers := []
  events := []
  crashed := false

/-- Witness for `softkill_race` at concrete cluster and service states. -/
theorem softkill_race_witness :
    (onShutdownAckA 1 c3sc).killed = [1] ∧
    (fireKillTimerA 1 (onShutdownAckA 1 c3sc) ⟨1, .cluster, .shutdown⟩).timerForcedKills
      = [] ∧
    (fireKillTimerA 1 c3sc ⟨1, .cluster, .shutdown⟩).timerForcedKills = [1] ∧
    (fireKillTimerA 1 c3sc ⟨1, .cluster, .shutdown⟩).fnInvoked = [(1, true)] ∧
    10 ∈ (fireKillTimerA 1 c3sc ⟨1, .cluster, .shutdown⟩).cbInvoked ∧
    (onShutdownAckA 1 c3ss).killed = [2] ∧
    (fireKillTimerA 1 c3ss ⟨2, .service, .shutdown⟩).timerForcedKills = [2] := by
  have h := softkill_race c3sc c3ss 1 2 .cluster .service ⟨1, 0, 0, 3⟩ ⟨2, "logsvc"⟩
    (some 10) (some 11) [] []
    rfl rfl (by decide) (by decide) rfl rfl rfl (by decide)
    rfl rfl (by decide) (by decide) rfl rfl rfl (by decide)
  exact ⟨(h.1 1 1).2.1, (h.1 1 1).1, (h.2.1 1).1, (h.2.1 1).2.2.1,
    (h.2.1 1).2.2.2.2 10 rfl, (h.2.2.1 1 1).2.1, (h.2.2.2 1).1⟩

def c4s : AState where
  clusters := [(0, ⟨1, 0, 0, 3⟩)]
  services := []
  launchingWorkers := []
  launchingManager := []
  softKills := []
  connectedClusterGroups := []
  clustersSeqFailedRestarts := []
  servicesSeqFailedRestarts := []
  queue := ⟨[⟨1, .cluster, .connectCluster 0⟩], none⟩
  maxConcurrency := 1
  maxRestarts := 5
  clusterCount := 1
  startServicesTogether := false
  servicesToCreate := none
  resharding := false
  fetches := []
  liveWorkers := [1]
  nextWorkerID := 2
  sent := []
  killed := []
  timerForcedKills := []
  fnInvoked := []
  cbInvoked := []
  timers := []
  events := []
  crashed := false

def c4sv : AState where
  clusters := []
  services := [("alpha", ⟨3, "alpha"⟩)]
  launchingWorkers := []
  launchingManager := []
  softKills := []
  connectedClusterGroups := []
  clustersSeqFailedRestarts := []
  servicesSeqFailedRestarts := [("alpha", 5)]
  queue := ⟨[⟨3, .service, .connectService "alpha"⟩], none⟩
  maxConcurrency := 1
  maxRestarts := 5
  clusterCount := 0
  startServicesTogether := false
  servicesToCreate := none
  resharding := false
  fetches := []
  liveWorkers := [3]
  nextWorkerID := 4
  sent := []
  killed := []
  timerForcedKills := []
  fnInvoked := []
  cbInvoked := []
  timers := []
  events := []
  crashed := false

/-- **C4 counterexample.** The claim says that at the maxRestarts threshold
the next unplanned exit drops the identity from the registry. In a concrete
state where service "alpha" (worker 3) has 5 sequential failures with
`maxRestarts = 5`, the exit of worker 3 spawns no replacement and advances the
queue, but the `services` registry STILL holds the record for "alpha": only
the failure counter is deleted. The exit handler's max-restarts branch never
touches `this.clusters`/`this.services`. -/
theorem restart_backoff_counterexample :
    jsGet (stepA c4sv (.exited 3)).services "alpha" = some ⟨3, "alpha"⟩ ∧
    jsGet (stepA c4sv (.exited 3)).servicesSeqFailedRestarts "alpha" = none ∧
    (stepA c4sv (.exited 3)).launchingWorkers = [] ∧
    (stepA c4sv (.exited 3)).nextWorkerID = 4 ∧
    (stepA c4sv (.exited 3)).queue.items = [] := by
  decide

/-- Witness for `restart_backoff`: a below-max cluster exit (counter 0 of 5)
and an at-max service exit (counter 5 of 5) at concrete states. -/
theorem restart_backoff_witness :
    jsGet (onExitA 1 c4s 1).clustersSeqFailedRestarts 0 = some 1 ∧
    jsGet (onExitA 1 c4s 1).launchingWorkers 2 = some (.lcluster ⟨2, 0, 0, 3⟩) ∧
    jsGet (onExitA 1 c4s 1).clusters 0 = some ⟨2, 0, 0, 3⟩ ∧
    jsGet (onCodeLoadedA c4s 1).clustersSeqFailedRestarts 0 = none ∧
    (onExitA 1 c4sv 3).launchingWorkers = [] ∧
    jsGet (onExitA 1 c4sv 3).servicesSeqFailedRestarts "alpha" = none ∧
    (onExitA 1 c4sv 3).services = [("alpha", ⟨3, "alpha"⟩)] := by
  have h := restart_backoff 0 c4s c4sv 1 3 ⟨1, 0, 0, 3⟩ ⟨3, "alpha"⟩
    ⟨1, .cluster, .connectCluster 0⟩ ⟨3, .service, .connectService "alpha"⟩ [] []
    rfl rfl (by decide) rfl rfl (by simp) (by decide)
    rfl rfl rfl (by decide) rfl rfl (by simp) (by decide)
  obtain ⟨h1, -, h3, -, h5, -⟩ := h
  obtain ⟨a1, a2, a3, -⟩ := h1 (by decide)
  obtain ⟨b1, -, b3, b4, -⟩ := h5 (by decide)
  exact ⟨a1, a2, a3, h3, b1, b3, b4⟩

/-- **C7 counterexample.** The claimed invariant — a workerID appears in at
most one of the cluster registry, the service registry and the
launching-workers map — is violated one step after a reachable steady state:
when live cluster worker 1 exits below the restart limit, the replacement
workerID 2 is placed in the launching map AND the cluster registry record is
re-pointed to workerID 2 at the same time, so workerID 2 sits in two stores
throughout the relaunch window. -/
theorem worker_store_exclusivity_counterexample :
    ¬ workerInAtMostOneStore (stepA c7s0 (.exited 1)) 2 ∧
    (jsGet (stepA c7s0 (.exited 1)).launchingWorkers 2).isSome = true ∧
    (jsFind (stepA c7s0 (.exited 1)).clusters (fun r => r.workerID = 2)).isSome = true := by
  decide

/-- **C7 (amended).** Promotion on `connected` does remove the launching
entry when it creates the registry record, exactly as claimed; but the restart
path deliberately re-points the registry record at the replacement workerID at
fork time, while the same workerID also enters the launching map, so during a
relaunch window the replacement workerID appears in both stores at once. The
exclusivity invariant holds for promotion, not across restarts. -/
theorem worker_promotion_and_restart_stores (fuel : Nat) (s s2 : AState)
    (wid wid2 : Nat) (rec rec2 : ClusterRecord) (q0 : QItem) (qrest : List QItem)
    (hlw : jsGet s.launchingWorkers wid = some (.lcluster rec))
    (hsk : jsGet s.softKills wid = none)
    (hq : s.queue.items = [])
    (hnodlw : (s.launchingWorkers.map Prod.fst).Nodup)
    (hfind2 : jsFind s2.clusters (fun r => r.workerID = wid2) = some rec2)
    (hsk2 : jsGet s2.softKills wid2 = none)
    (hmr2 : s2.maxRestarts ≠ -1)
    (hcnt2 : ((jsGet s2.clustersSeqFailedRestarts rec2.clusterID).getD 0 : Int)
      < s2.maxRestarts)
    (hq2 : s2.queue.items = q0 :: qrest)
    (hov2 : s2.queue.override = none) :
    (jsGet (onConnectedA fuel s wid).launchingWorkers wid = none ∧
     jsGet (onConnectedA fuel s wid).clusters rec.clusterID
       = some { rec with workerID := wid }) ∧
    (jsGet (onExitA fuel s2 wid2).launchingWorkers s2.nextWorkerID
       = some (.lcluster { rec2 with workerID := s2.nextWorkerID }) ∧
     jsGet (onExitA fuel s2 wid2).clusters rec2.clusterID
       = some { rec2 with workerID := s2.nextWorkerID }) := by
  have hr := onExit_restart_cluster fuel s2 wid2 rec2 q0 qrest hfind2 hsk2 hmr2 hcnt2
    hq2 hov2
  exact ⟨onConnected_promotes_cluster fuel s wid rec hlw hsk hq hnodlw, hr.1, hr.2.1⟩

def c7p : AState where
  clusters := []
  services := []
  launchingWorkers := [(1, .lcluster ⟨1, 0, 0, 3⟩)]
  launchingManager := []
  softKills := []
  connectedClusterGroups := []
  clustersSeqFailedRestarts := []
  servicesSeqFailedRestarts := []
  queue := ⟨[], none⟩
  maxConcurrency := 1
  maxRestarts := 5
  clusterCount := 1
  startServicesTogether := false
  servicesToCreate := none
  resharding := false
  fetches := []
  liveWorkers := [1]
  nextWorkerID := 2
  sent := []
  killed := []
  timerForcedKills := []
  fnInvoked := []
  cbInvoked := []
  timers := []
  events := []
  crashed := false

/-- Witness for `worker_promotion_and_restart_stores` at concrete states. -/
theorem worker_promotion_and_restart_stores_witness :
    (jsGet (onConnectedA 1 c7p 1).launchingWorkers 1 = none ∧
     jsGet (onConnectedA 1 c7p 1).clusters 0 = some ⟨1, 0, 0, 3⟩) ∧
    (jsGet (onExitA 1 c7s0 1).launchingWorkers 2 = some (.lcluster ⟨2, 0, 0, 3⟩) ∧
     jsGet (onExitA 1 c7s0 1).clusters 0 = some ⟨2, 0, 0, 3⟩) := by
  exact worker_promotion_and_restart_stores 1 c7p c7s0 1 1 ⟨1, 0, 0, 3⟩ ⟨1, 0, 0, 3⟩
    ⟨1, .cluster, .connectCluster 0⟩ []
    rfl rfl rfl (by decide) rfl rfl (by decide) (by decide) rfl rfl

end Aura
